import Mathlib

/-!
Shallow embedding of the varwolf style engine: the stable serializer and
FNV-1a hasher (src/lib/utils/to-stable-string.ts, fnv1a.ts,
src/lib/core/stable-hash.ts), the recursive style transformer
(src/lib/core/transform.ts) and the CSS injector with its cache
(src/lib/core/inject.ts).  JavaScript records are modelled as
insertion-ordered association lists, JavaScript numbers as exact fractions
(with `none` for NaN; every concrete number appearing in this development
has a short exact decimal expansion on which exact arithmetic and IEEE
double arithmetic print identical strings, e.g. the double product
`1.2 * 0.9` prints as "1.08"), and mutation as explicit state passing.  Recursion over the nested style values is fuelled so that every
definition is executable and kernel-reducible.
-/

namespace Varwolf

/-- Join a list of strings with a separator, as `Array.prototype.join`. -/
def joinWith (sep : String) : List String → String
  | [] => ""
  | [x] => x
  | x :: xs => x ++ sep ++ joinWith sep xs

/-- Model of `String.prototype.slice(n)` for a nonnegative start index. -/
def strDrop (s : String) (n : Nat) : String := String.mk (s.data.drop n)

/-- Model of `key.startsWith("__")`. -/
def startsWithUU (s : String) : Bool :=
  match s.data with
  | '_' :: '_' :: _ => true
  | _ => false

/-- Model of `key.startsWith("_")`. -/
def startsWithU (s : String) : Bool :=
  match s.data with
  | '_' :: _ => true
  | _ => false

/-- The main JavaScript `\s` whitespace characters (the inputs of this
development only ever contain the ASCII ones). -/
def isJsWs (c : Char) : Bool :=
  c = ' ' || c = '\t' || c = '\n' || c = '\r' || c = '\x0b' || c = '\x0c'

/-- Insert a hyphen between a lowercase letter or digit and an uppercase
letter, as the global regex replace `([a-z0-9])([A-Z])` → `$1-$2` in
to-kebab-case.ts.  A match can never begin at an uppercase character, so
scanning one character at a time is equivalent to how the regex resumes
after each match. -/
def insertCamelHyphens : List Char → List Char
  | a :: b :: rest =>
      (if (a.isLower || a.isDigit) && b.isUpper then [a, '-'] else [a])
        ++ insertCamelHyphens (b :: rest)
  | l => l

/-- Model of `toKebabCase` (src/lib/utils/to-kebab-case.ts): strip one
leading `__`, turn underscores into hyphens, hyphenate camelCase
boundaries, lowercase (ASCII, as `Char.toLower`). -/
def toKebabCase (s : String) : String :=
  let cs := match s.data with
            | '_' :: '_' :: rest => rest
            | l => l
  let cs := cs.map (fun c => if c = '_' then '-' else c)
  let cs := insertCamelHyphens cs
  String.mk (cs.map Char.toLower)

/-! ### JavaScript numbers as exact fractions

A finite JavaScript number is modelled as an exact fraction `num / den`
(not kept normalized; `den` is positive for every fraction the model
constructs), and NaN as `none`.  Every concrete number in this
development has a short exact decimal expansion, on which exact
arithmetic and IEEE double arithmetic print identical strings (e.g. the
double product `1.2 * 0.9` prints as "1.08"). -/

structure JsRat where
  num : Int
  den : Nat
deriving DecidableEq, Repr

/-- Fraction equality by cross multiplication: the number-value equality
of two fractions with positive denominators. -/
def jsRatEq (a b : JsRat) : Bool :=
  a.num * (b.den : Int) == b.num * (a.den : Int)

/-- Decimal digit character. -/
def digitChar (n : Nat) : Char := Char.ofNat (48 + n)

/-- Fractional decimal digits of `rem / den` by long division; the fuel
covers every terminating expansion appearing in this development. -/
def fracDigits : Nat → Nat → Nat → List Char
  | 0, _, _ => []
  | _ + 1, 0, _ => []
  | f + 1, rem, den =>
      let r10 := rem * 10
      digitChar (r10 / den) :: fracDigits f (r10 % den) den

/-- Decimal rendering of a nonnegative fraction with terminating
expansion, as `String(number)` prints such doubles. -/
def ratReprNN (q : JsRat) : String :=
  let n := q.num.toNat
  let d := q.den
  let frac := fracDigits 40 (n % d) d
  if frac.isEmpty then Nat.repr (n / d)
  else Nat.repr (n / d) ++ "." ++ String.mk frac

/-- Decimal rendering of a fraction, signs included. -/
def ratRepr (q : JsRat) : String :=
  if q.num < 0 then "-" ++ ratReprNN ⟨-q.num, q.den⟩ else ratReprNN q

/-- Model of `String(n)` for a JavaScript number; `none` models NaN. -/
def jsNumToString (n : Option JsRat) : String :=
  match n with
  | none => "NaN"
  | some q => ratRepr q

/-- Digits prefix of a character list. -/
def spanDigits (cs : List Char) : List Char × List Char :=
  (cs.takeWhile Char.isDigit, cs.dropWhile Char.isDigit)

def natOfDigits (ds : List Char) : Nat :=
  ds.foldl (fun n c => n * 10 + (c.toNat - 48)) 0

/-- Unsigned decimal literal `digits [. digits]` with at least one digit,
consuming the whole input (exponents and hex forms are outside the
modelled domain). -/
def parseUnsignedDec (cs : List Char) : Option JsRat :=
  let (ipart, rest) := spanDigits cs
  match rest with
  | [] => if ipart.isEmpty then none else some ⟨(natOfDigits ipart : Int), 1⟩
  | '.' :: rest2 =>
      let (fpart, rest3) := spanDigits rest2
      if !rest3.isEmpty then none
      else if ipart.isEmpty && fpart.isEmpty then none
      else some ⟨(natOfDigits ipart * 10 ^ fpart.length + natOfDigits fpart : Int),
                 10 ^ fpart.length⟩
  | _ => none

/-- Model of `Number(s)` on decimal strings: trimmed empty input is `0`,
otherwise an optionally signed decimal literal; anything else is NaN
(`none`).  Also the reading of a decimal numeric literal in source. -/
def jsNumberOf (s : String) : Option JsRat :=
  let cs := ((s.data.dropWhile isJsWs).reverse.dropWhile isJsWs).reverse
  match cs with
  | [] => some ⟨0, 1⟩
  | '+' :: rest => parseUnsignedDec rest
  | '-' :: rest => (parseUnsignedDec rest).map (fun q => ⟨-q.num, q.den⟩)
  | _ => parseUnsignedDec cs

/-- NaN-propagating multiplication of JavaScript numbers. -/
def jsMul (a b : Option JsRat) : Option JsRat :=
  match a, b with
  | some x, some y => some ⟨x.num * y.num, x.den * y.den⟩
  | _, _ => none

/-! ### Style values -/

/-- A JavaScript value as it may appear in a style description: `vFn`
carries the textual source (what `fn.toString()` returns) together with a
semantic function from the received current value to `String(result)`,
where `none` models the invocation throwing. -/
inductive StyleVal where
  | vNull
  | vBool (b : Bool)
  | vNum (n : Option JsRat)
  | vStr (s : String)
  | vFn (src : String) (body : String → Option String)
  | vObj (entries : List (String × StyleVal))
  | vArr (elems : List StyleVal)

/-- Model of `String(value)`; fuelled because arrays stringify their
elements recursively. -/
def jsString : Nat → StyleVal → String
  | 0, _ => ""
  | _ + 1, .vNull => "null"
  | _ + 1, .vBool b => if b then "true" else "false"
  | _ + 1, .vNum n => jsNumToString n
  | _ + 1, .vStr s => s
  | _ + 1, .vFn src _ => src
  | _ + 1, .vObj _ => "[object Object]"
  | f + 1, .vArr es => joinWith "," (es.map (jsString f))

/-! ### Insertion-ordered records -/

/-- Model of `m[k] = v` on a JavaScript object: an existing key keeps its
position, a new key is appended. -/
def rset {β : Type} (m : List (String × β)) (k : String) (v : β) : List (String × β) :=
  if m.any (fun p => p.1 == k) then
    m.map (fun p => if p.1 == k then (k, v) else p)
  else m ++ [(k, v)]

/-- Model of `m[k]` (and `Map.prototype.get`). -/
def rget {β : Type} (m : List (String × β)) (k : String) : Option β :=
  (m.find? (fun p => p.1 == k)).map Prod.snd

/-! ### The transformer (src/lib/core/transform.ts) -/

/-- The MOST_COMMON_PSEUDO_CLASSES list from
src/lib/constants/valid-css-pseudo-classes.ts. -/
def mostCommonPseudoClasses : List String :=
  ["active", "checked", "disabled", "enabled", "first-child", "focus-visible",
   "focus-within", "focus", "hover", "invalid", "last-child", "link",
   "placeholder-shown", "required", "valid", "visited"]

/-- One diagnostic event per `devWarn` / `console.warn` call site in
transform.ts, identified by its trigger; the full console message text is
not modelled, and actual printing of the first four is further gated by
`IS_DEV && warningsEnabled` inside `devWarn`. -/
inductive Diag where
  | unsupportedPseudoClass (pc : String)
  | unknownState (fromState varName : String)
  | missingVarInState (varName fromState : String)
  | noBaseValue (varName : String)
  | resolverError (varName : String)
deriving DecidableEq, Repr

/-- The `TransformResult` record of transform.ts. -/
structure TransformResult where
  CSSVars : List (String × String)
  regularStyles : List (String × StyleVal)
  pseudoClasses : List (String × List (String × String))

/-- The shared `stateVarsMap` (state name to resolved variables). -/
abbrev SVMap := List (String × List (String × String))

/-- The `TransformContext` of transform.ts, minus the shared map, which is
threaded explicitly. -/
structure TransformContext where
  parentVars : Option (List (String × String)) := none
  parentPseudoClasses : List String := []

/-- Model of `extractFromParam` at one candidate position: the regex asks
for the literal text from, optional whitespace around an equals sign, an
opening single or double quote, one or more characters that are neither
kind of quote (captured), and a closing quote of either kind. -/
def matchFromAt (cs : List Char) : Option String :=
  match cs with
  | 'f' :: 'r' :: 'o' :: 'm' :: rest =>
      match rest.dropWhile isJsWs with
      | '=' :: r2 =>
          match r2.dropWhile isJsWs with
          | q :: r4 =>
              if q = '"' || q = '\x27' then
                let content := r4.takeWhile (fun c => !(c = '"' || c = '\x27'))
                match content, r4.dropWhile (fun c => !(c = '"' || c = '\x27')) with
                | [], _ => none
                | _, c2 :: _ =>
                    if c2 = '"' || c2 = '\x27' then some (String.mk content) else none
                | _, [] => none
              else none
          | [] => none
      | _ => none
  | _ => none

/-- Scan left to right for the first regex match. -/
def scanForFrom : List Char → Option String
  | [] => none
  | c :: rest =>
      match matchFromAt (c :: rest) with
      | some s => some s
      | none => scanForFrom rest

/-- Model of `extractFromParam(fn)` applied to the function source. -/
def extractFromParam (src : String) : Option String :=
  scanForFrom src.data

/-- Model of `stateVarsMap.get("base")![varName] = v`; `"base"` is present
whenever this runs (it is installed at the root call). -/
def svmSetBase (svm : SVMap) (n v : String) : SVMap :=
  match rget svm "base" with
  | some r => rset svm "base" (rset r n v)
  | none => svm

/-- Model of `Object.entries(value)` for the values a state key can hold:
objects give their entries, strings enumerate indexed characters, numbers
and booleans and functions have no own enumerable entries.
`Object.entries(null)` throws in JavaScript and is outside the modelled
domain. -/
def charEntriesFrom : Nat → List Char → List (String × StyleVal)
  | _, [] => []
  | i, c :: rest => (Nat.repr i, StyleVal.vStr (String.mk [c])) :: charEntriesFrom (i + 1) rest

def entriesOf : StyleVal → List (String × StyleVal)
  | .vObj es => es
  | .vStr s => charEntriesFrom 0 s.data
  | _ => []

/-- State carried through the first pass of `transformStyles`. -/
structure P1State where
  vars : List (String × String)
  regs : List (String × StyleVal)
  pcs : List (String × List (String × String))
  svm : SVMap
  diags : List Diag

/-- One entry of the first pass (literal variables, state branches, plain
properties); `rec` is the recursive transform at the next fuel level. -/
def pass1Step (fuel : Nat)
    (rec : List (String × StyleVal) → TransformContext → Option SVMap →
      TransformResult × SVMap × List Diag)
    (ctx : TransformContext) (st : P1State) (e : String × StyleVal) : P1State :=
  if startsWithUU e.1 then
    let varName := "--" ++ toKebabCase (strDrop e.1 2)
    match e.2 with
    | .vStr s =>
        { st with vars := rset st.vars varName s,
                  svm := if ctx.parentVars.isNone then svmSetBase st.svm varName s else st.svm }
    | .vNum n =>
        let sv := jsNumToString n
        { st with vars := rset st.vars varName sv,
                  svm := if ctx.parentVars.isNone then svmSetBase st.svm varName sv else st.svm }
    | _ => st
  else if startsWithU e.1 then
    let pc := toKebabCase (strDrop e.1 1)
    let d0 := if mostCommonPseudoClasses.contains pc then [] else [Diag.unsupportedPseudoClass pc]
    let chain := ctx.parentPseudoClasses ++ [pc]
    let compound := joinWith ":" chain
    let (nres, svm1, nd) :=
      rec (entriesOf e.2)
        { parentVars := some st.vars, parentPseudoClasses := chain } (some st.svm)
    let merged := nres.regularStyles.foldl
      (fun m p => rset m (toKebabCase p.1) (jsString fuel p.2)) nres.CSSVars
    let svm2 := rset svm1 compound nres.CSSVars
    let pcs1 := rset st.pcs compound merged
    let pcs2 := nres.pseudoClasses.foldl (fun m p => rset m p.1 p.2) pcs1
    { vars := st.vars, regs := st.regs, pcs := pcs2, svm := svm2,
      diags := st.diags ++ d0 ++ nd }
  else
    { st with regs := rset st.regs e.1 e.2 }

/-- State carried through the second pass (vars, shared map, diagnostics). -/
structure P2State where
  vars : List (String × String)
  svm : SVMap
  diags : List Diag

/-- The `currentValue` a function-valued variable receives (transform.ts
lines 94-127): the requested state snapshot when a `from` state was
extracted, otherwise the inherited parent variable, else the own resolved
value of this level, else the empty string. -/
def pass2CurrentValue (ctx : TransformContext) (vars : List (String × String)) (svm : SVMap)
    (varName : String) (fromState : Option String) : String :=
  match fromState with
  | some fs =>
      match rget svm fs with
      | some r => (rget r varName).getD ""
      | none => ""
  | none =>
      match ctx.parentVars with
      | some pv =>
          match rget pv varName with
          | some v => v
          | none => (rget vars varName).getD ""
      | none => (rget vars varName).getD ""

/-- The `devWarn` events emitted while computing the current value: an
unknown referenced state, a variable missing (or empty — the check is
truthiness) in the referenced state, or a root variable with no base
value. -/
def pass2StepDiags (ctx : TransformContext) (vars : List (String × String)) (svm : SVMap)
    (varName : String) (fromState : Option String) : List Diag :=
  match fromState with
  | some fs =>
      match rget svm fs with
      | none => [Diag.unknownState fs varName]
      | some r =>
          if ((rget r varName).getD "") = "" then [Diag.missingVarInState varName fs]
          else []
  | none =>
      if pass2CurrentValue ctx vars svm varName none = "" && ctx.parentVars.isNone then
        [Diag.noBaseValue varName]
      else []

/-- One entry of the second pass: resolve a function-valued variable, with
the per-variable try/catch of transform.ts lines 91-138 (the catch stores
the empty string and leaves the base snapshot untouched). -/
def pass2Step (ctx : TransformContext) (st : P2State) (e : String × StyleVal) : P2State :=
  match e.2 with
  | .vFn src body =>
    if startsWithUU e.1 then
      let varName := "--" ++ toKebabCase (strDrop e.1 2)
      let fromState := extractFromParam src
      let cv := pass2CurrentValue ctx st.vars st.svm varName fromState
      let ds := pass2StepDiags ctx st.vars st.svm varName fromState
      match body cv with
      | some out =>
          { vars := rset st.vars varName out,
            svm := if ctx.parentVars.isNone then svmSetBase st.svm varName out else st.svm,
            diags := st.diags ++ ds }
      | none =>
          { vars := rset st.vars varName "",
            svm := st.svm,
            diags := st.diags ++ ds ++ [Diag.resolverError varName] }
    else st
  | _ => st

/-- Model of `transformStyles` (transform.ts): two passes over the entries
with the shared `stateVarsMap` threaded explicitly; the root call receives
`none` and installs the `"base"` snapshot.  Fuelled on nesting depth; the
fuel-zero row is unreachable for any finite input given enough fuel. -/
def transformStyles : Nat → List (String × StyleVal) → TransformContext → Option SVMap →
    TransformResult × SVMap × List Diag
  | 0, _, _, svmIn => (⟨[], [], []⟩, svmIn.getD [], [])
  | fuel + 1, styles, ctx, svmIn =>
    let svm0 := match svmIn with
                | some m => m
                | none => rset ([] : SVMap) "base" []
    let st1 := styles.foldl (pass1Step fuel (transformStyles fuel) ctx) ⟨[], [], [], svm0, []⟩
    let st2 := styles.foldl (pass2Step ctx) ⟨st1.vars, st1.svm, st1.diags⟩
    (⟨st2.vars, st1.regs, st1.pcs⟩, st2.svm, st2.diags)

/-! ### The injector (src/lib/core/inject.ts) -/

/-- Rendered declarations of one rule body, as
`entries.map(([k, v]) => k + ": " + v + ";").join(" ")`. -/
def declsOf (m : List (String × String)) : String :=
  joinWith " " (m.map (fun p => p.1 ++ ": " ++ p.2 ++ ";"))

/-- The rule texts `injectCSS` builds (inject.ts lines 32-59): one base
rule for the union of variables and kebab-cased regular styles when that
union is nonempty, then one rule per pseudo-class selector with a nonempty
declaration list. -/
def renderRules (fuel : Nat) (hash : String) (CSSVars : List (String × String))
    (regularStyles : List (String × StyleVal))
    (pseudoClasses : List (String × List (String × String))) : List String :=
  let base := regularStyles.foldl
    (fun m p => rset m (toKebabCase p.1) (jsString fuel p.2)) CSSVars
  let baseRules :=
    if base.isEmpty then []
    else ["." ++ hash ++ " \x7b " ++ declsOf base ++ " \x7d"]
  baseRules ++ pseudoClasses.filterMap (fun p =>
    let pv := declsOf p.2
    if pv = "" then none
    else some ("." ++ hash ++ ":" ++ p.1 ++ " \x7b " ++ pv ++ " \x7d"))

/-- The shared style tag: its text content (textual-append mode), its live
rule list (rule-object mode) and whether `styleTag.sheet` is available.
A successful `insertRule` call at index `cssRules.length` appends to the
rule list; which rule texts the parser of the browser rejects instead
(making `insertRule` throw) is part of the environment below. -/
structure StyleTag where
  textContent : String
  cssRules : List String
  hasSheet : Bool
deriving DecidableEq, Repr

/-- The process-wide mutable state of inject.ts: the optional style tag in
the document and the `STYLE_CACHE` set (kept as an insertion-ordered,
duplicate-free list). -/
structure Dom where
  styleTag : Option StyleTag
  styleCache : List String
deriving DecidableEq, Repr

/-- Environment facts fixed for a whole run: the `isDev()` flag, whether
a freshly created style tag exposes a `CSSStyleSheet`, and which rule
texts the CSS parser of the browser rejects — `insertRule` throws on a
rule it cannot parse (for example a selector built from an unsupported
pseudo-class, which the transformer admits with only a `devWarn`), and
inject.ts catches that throw per rule (lines 77-83). -/
structure JsEnv where
  isDev : Bool
  freshTagHasSheet : Bool
  insertRejected : String → Bool

/-- Which return point of `injectCSS` was taken. -/
inductive InjectOutcome where
  | skippedCached
  | skippedEmpty
  | errorNoSheet
  | injected
deriving DecidableEq, Repr

/-- Model of `fetchStyleTag`: reuse the tag with the well-known id, or
create and attach a fresh empty one. -/
def fetchStyleTag (env : JsEnv) (d : Dom) : StyleTag × Dom :=
  match d.styleTag with
  | some t => (t, d)
  | none =>
      let t : StyleTag := ⟨"", [], env.freshTagHasSheet⟩
      (t, { d with styleTag := some t })

/-- Model of `injectCSS` (inject.ts lines 21-87), returning the new state
and which return point was taken; `errorNoSheet` models the always-on
`console.error` followed by the uncached early return.  In rule-object
mode the per-rule loop of lines 77-83 appends each rule at the end of the
sheet unless its `insertRule` call throws — the environment decides which
rule texts the CSS parser rejects — and the catch swallows the failure
(logging a `console.error`), so a rejected rule is simply missing while
the loop continues; `STYLE_CACHE.add(hash)` runs after the loop
regardless of how many insertions failed. -/
def injectCSS (env : JsEnv) (fuel : Nat) (d : Dom) (hash : String)
    (CSSVars : List (String × String)) (regularStyles : List (String × StyleVal))
    (pseudoClasses : List (String × List (String × String))) : Dom × InjectOutcome :=
  if d.styleCache.contains hash then (d, .skippedCached)
  else
    let td := fetchStyleTag env d
    let rules := renderRules fuel hash CSSVars regularStyles pseudoClasses
    if rules.isEmpty then (td.2, .skippedEmpty)
    else if env.isDev then
      let txt := joinWith "\n" rules ++ "\n"
      let tag := { td.1 with textContent := td.1.textContent ++ txt }
      ({ styleTag := some tag, styleCache := td.2.styleCache ++ [hash] }, .injected)
    else if !td.1.hasSheet then (td.2, .errorNoSheet)
    else
      let tag := { td.1 with cssRules :=
        td.1.cssRules ++ rules.filter (fun r => !env.insertRejected r) }
      ({ styleTag := some tag, styleCache := td.2.styleCache ++ [hash] }, .injected)

/-- Model of `removeStyles`: remove the tag, clear the cache. -/
def removeStyles (_d : Dom) : Dom := ⟨none, []⟩

/-- Model of `getCacheSize`. -/
def getCacheSize (d : Dom) : Nat := d.styleCache.length

/-- Model of `getInjectedCSS`: text content in dev mode, the joined rule
texts in rule-object mode (the browser serialization `rule.cssText` is
modelled as the inserted text), empty when no tag or no sheet exists. -/
def getInjectedCSS (env : JsEnv) (d : Dom) : String :=
  match d.styleTag with
  | none => ""
  | some t =>
      if env.isDev then t.textContent
      else if t.hasSheet then joinWith "\n" (t.cssRules.map id)
      else ""

/-- States reachable from the initial empty document by any sequence of
`injectCSS` and `removeStyles` calls. -/
inductive Reachable (env : JsEnv) : Dom → Prop where
  | init : Reachable env ⟨none, []⟩
  | inject {d : Dom} (fuel : Nat) (hash : String)
      (cv : List (String × String)) (rs : List (String × StyleVal))
      (pc : List (String × List (String × String))) :
      Reachable env d → Reachable env (injectCSS env fuel d hash cv rs pc).1
  | reset {d : Dom} : Reachable env d → Reachable env (removeStyles d)

/-- The rule list `rules` is present in the given container: as a
contiguous block of the text content in textual-append mode, as members of
the live rule list in rule-object mode. -/
def rulesIn (env : JsEnv) (tagOpt : Option StyleTag) (rules : List String) : Prop :=
  match tagOpt with
  | none => False
  | some t =>
      if env.isDev = true then
        ∃ a b, t.textContent.data = a ++ (joinWith "\n" rules ++ "\n").data ++ b
      else ∀ r ∈ rules, r ∈ t.cssRules

/-- Every cached identity key has a nonempty set of rules for that key
present in the container. -/
def cacheBacked (env : JsEnv) (d : Dom) : Prop :=
  ∀ h ∈ d.styleCache, ∃ rules, rules ≠ [] ∧
    (∀ r ∈ rules, ∃ rest, r = "." ++ h ++ rest) ∧ rulesIn env d.styleTag rules

/-- The rule list `rules` is present in the container up to rejected
insertions: in textual-append mode the whole block is a contiguous piece
of the text content; in rule-object mode every rule whose `insertRule`
call the environment accepted is a member of the live rule list, while a
rejected rule was thrown away and its failure caught (inject.ts lines
77-83). -/
def rulesInUpTo (env : JsEnv) (tagOpt : Option StyleTag) (rules : List String) : Prop :=
  match tagOpt with
  | none => False
  | some t =>
      if env.isDev = true then
        ∃ a b, t.textContent.data = a ++ (joinWith "\n" rules ++ "\n").data ++ b
      else ∀ r ∈ rules, env.insertRejected r = false → r ∈ t.cssRules

/-- Every cached identity key has a nonempty set of rules for that key
present in the container up to individually rejected rule-object
insertions. -/
def cacheBackedUpTo (env : JsEnv) (d : Dom) : Prop :=
  ∀ h ∈ d.styleCache, ∃ rules, rules ≠ [] ∧
    (∀ r ∈ rules, ∃ rest, r = "." ++ h ++ rest) ∧ rulesInUpTo env d.styleTag rules

/-- The container of `d2` extends the container of `d1`: text content and
rule list only ever grow. -/
def containerExtends (d1 d2 : Dom) : Prop :=
  match d1.styleTag with
  | none => True
  | some t1 =>
      ∃ t2, d2.styleTag = some t2 ∧
        (∃ x, t2.textContent = t1.textContent ++ x) ∧
        (∃ l, t2.cssRules = t1.cssRules ++ l)

/-! ### The serializer (src/lib/utils/to-stable-string.ts) -/

/-- Collapse runs of two spaces produced by the whitespace map into one
(keeping the last), giving the effect of replacing each maximal
whitespace run by a single space. -/
def squeezeSpaces : List Char → List Char
  | [] => []
  | [c] => [c]
  | a :: b :: rest =>
      if a = ' ' && b = ' ' then squeezeSpaces (b :: rest)
      else a :: squeezeSpaces (b :: rest)

/-- Model of `fn.toString().replace(/\s+/g, " ").trim()`. -/
def collapseWs (s : String) : String :=
  let cs := s.data.map (fun c => if isJsWs c then ' ' else c)
  let cs := squeezeSpaces cs
  String.mk (((cs.dropWhile (· = ' ')).reverse.dropWhile (· = ' ')).reverse)

/-- Lowercase hexadecimal digit character. -/
def hexDigit (n : Nat) : Char :=
  if n < 10 then Char.ofNat (48 + n) else Char.ofNat (87 + n)

/-- JSON string escaping for one character. -/
def jsonEscapeChar (c : Char) : List Char :=
  if c = '"' then ['\\', '"']
  else if c = '\\' then ['\\', '\\']
  else if c = '\n' then ['\\', 'n']
  else if c = '\r' then ['\\', 'r']
  else if c = '\t' then ['\\', 't']
  else if c = '\x08' then ['\\', 'b']
  else if c = '\x0c' then ['\\', 'f']
  else if c.toNat < 32 then
    ['\\', 'u', '0', '0', hexDigit (c.toNat / 16), hexDigit (c.toNat % 16)]
  else [c]

/-- JSON string literal for `s`. -/
def jsonQuote (s : String) : String :=
  "\"" ++ String.mk (s.data.map jsonEscapeChar).flatten ++ "\""

/-- Code-unit lexicographic order on character lists, as the default
`Array.prototype.sort` string comparison (UTF-16 code units; equal to
codepoints on the BMP strings of this development). -/
def charListLe : List Char → List Char → Bool
  | [], _ => true
  | _ :: _, [] => false
  | a :: as, b :: bs =>
      if a.toNat < b.toNat then true
      else if b.toNat < a.toNat then false
      else charListLe as bs

def strLe (a b : String) : Bool := charListLe a.data b.data

/-- Sorting the entries of an object by key, as
`Object.keys(val).sort().reduce(...)` rebuilds the object. -/
def sortByKey (l : List (String × StyleVal)) : List (String × StyleVal) :=
  List.insertionSort (fun a b => strLe a.1 b.1 = true) l

/-- Sorted copy of a list of keys. -/
def sortStrings (l : List String) : List String :=
  List.insertionSort (fun a b => strLe a b = true) l

/-- Model of `toStableString`: `JSON.stringify` with the replacer that
stringifies functions (whitespace-collapsed source), sorts object keys,
and leaves everything else to the default serialization; `NaN` serializes
as `null`.  The `Date` and `RegExp` rows of the replacer are outside the
modelled value domain. -/
def toStableString : Nat → StyleVal → String
  | 0, _ => ""
  | _ + 1, .vNull => "null"
  | _ + 1, .vBool b => if b then "true" else "false"
  | _ + 1, .vNum n =>
      match n with
      | none => "null"
      | some q => ratRepr q
  | _ + 1, .vStr s => jsonQuote s
  | _ + 1, .vFn src _ => jsonQuote (collapseWs src)
  | f + 1, .vArr es => "[" ++ joinWith "," (es.map (toStableString f)) ++ "]"
  | f + 1, .vObj kvs =>
      "\x7b" ++ joinWith ","
        ((sortByKey kvs).map (fun p => jsonQuote p.1 ++ ":" ++ toStableString f p.2))
        ++ "\x7d"

/-! ### The hasher (src/lib/utils/fnv1a.ts, src/lib/core/stable-hash.ts) -/

/-- Base-36 digit character, as `Number.prototype.toString(36)`. -/
def digitChar36 (n : Nat) : Char :=
  if n < 10 then Char.ofNat (48 + n) else Char.ofNat (87 + n)

def toBase36Core : Nat → Nat → List Char → List Char
  | 0, _, acc => acc
  | fuel + 1, n, acc =>
      if n < 36 then digitChar36 n :: acc
      else toBase36Core fuel (n / 36) (digitChar36 (n % 36) :: acc)

/-- Base-36 rendering of a natural number. -/
def toBase36 (n : Nat) : String := String.mk (toBase36Core (n + 1) n [])

/-- Model of `fnv1a`: 32-bit FNV-1a over the UTF-16 code units of the
input (`Char.toNat`, identical on the BMP strings of this development),
rendered in base 36. -/
def fnv1a (s : String) : String :=
  toBase36 (s.data.foldl
    (fun h c => ((h ^^^ c.toNat) * 16777619) % 4294967296) 2166136261)

/-- Model of `createStableHash`: the `vw-` namespaced hash of the stable
serialization. -/
def createStableHash (fuel : Nat) (v : StyleVal) : String :=
  "vw-" ++ fnv1a (toStableString fuel v)

/-! ### Deep equality and well-formedness of style values -/

/-- Number-value equality of two JavaScript numbers; two NaN fields count
as deeply equal (both serialize as `null` anyway). -/
def jsNumEq : Option JsRat → Option JsRat → Bool
  | none, none => true
  | some a, some b => jsRatEq a b
  | _, _ => false

/-- Key-order-independent deep equality of two JavaScript values: same
keys (compared as sorted lists) with deeply equal values at every nesting
depth; functions compare by source text, arrays elementwise. -/
def deepEqB : Nat → StyleVal → StyleVal → Bool
  | 0, _, _ => false
  | f + 1, a, b =>
    match a, b with
    | .vNull, .vNull => true
    | .vBool x, .vBool y => x == y
    | .vNum x, .vNum y => jsNumEq x y
    | .vStr x, .vStr y => x == y
    | .vFn s _, .vFn t _ => s == t
    | .vArr xs, .vArr ys =>
        xs.length == ys.length &&
        (List.zip xs ys).all (fun p => deepEqB f p.1 p.2)
    | .vObj xs, .vObj ys =>
        sortStrings (xs.map Prod.fst) == sortStrings (ys.map Prod.fst) &&
        (xs.map Prod.fst).all (fun k =>
          match rget xs k, rget ys k with
          | some va, some vb => deepEqB f va vb
          | _, _ => false)
    | _, _ => false

/-- Duplicate-freedom of a key list (JavaScript objects cannot hold
duplicate keys). -/
def nodupKeys : List String → Bool
  | [] => true
  | k :: rest => !(rest.contains k) && nodupKeys rest

/-- Well-formedness of a value: duplicate-free keys at every nesting
depth, and positive denominators for finite numbers — both automatic for
values coming from a JavaScript runtime. -/
def wfKeys : Nat → StyleVal → Bool
  | 0, _ => false
  | f + 1, v =>
    match v with
    | .vObj kvs => nodupKeys (kvs.map Prod.fst) && kvs.all (fun p => wfKeys f p.2)
    | .vArr es => es.all (wfKeys f)
    | .vNum (some q) => q.den != 0
    | _ => true

/-- Values a variable key silently drops: neither string, number, nor
function. -/
def isDroppedVal : StyleVal → Bool
  | .vStr _ => false
  | .vNum _ => false
  | .vFn _ _ => false
  | _ => true

/-- Whether an entry is a function-valued variable entry resolving to the
variable name `n`. -/
def isFnVarFor (n : String) (e : String × StyleVal) : Bool :=
  startsWithUU e.1 &&
    (match e.2 with
     | .vFn _ _ => true
     | _ => false) &&
    ("--" ++ toKebabCase (strDrop e.1 2) == n)

/-- Whether an entry is a state branch: a single-underscore key that does
not start with a double underscore. -/
def isStateEntry (e : String × StyleVal) : Bool :=
  !startsWithUU e.1 && startsWithU e.1

/-- The string a literal variable value writes into `CSSVars` in the first
pass: `String(value)` for strings and numbers, nothing for other values
(transform.ts lines 40-46). -/
def litStringOf : StyleVal → Option String
  | .vStr s => some s
  | .vNum n => some (jsNumToString n)
  | _ => none

/-- How one first-pass entry updates the literal value recorded for the
variable name `n`: a literal variable entry aliasing `n` overwrites it,
every other entry leaves it alone. -/
def litStep (n : String) (acc : Option String) (e : String × StyleVal) : Option String :=
  if startsWithUU e.1 && ("--" ++ toKebabCase (strDrop e.1 2) == n) then
    match litStringOf e.2 with
    | some s => some s
    | none => acc
  else acc

/-- The value the first pass leaves in `CSSVars` for the variable name
`n`: that of the last literal entry aliasing `n`, if any. -/
def lastLitAlias (n : String) (l : List (String × StyleVal)) : Option String :=
  l.foldl (litStep n) none

/-- What the second pass stores for one resolver invocation: the computed
value, or the empty string written by the catch when the resolver
throws. -/
def resolvedOf (body : String → Option String) (cv : String) : String :=
  match body cv with
  | some out => out
  | none => ""

/-- Whether an entry is a plain property whose kebab-cased key collides
with the variable name `n` when the merged state record is built
(transform.ts lines 71-74). -/
def isRegAliasFor (n : String) (e : String × StyleVal) : Bool :=
  !startsWithU e.1 && (toKebabCase e.1 == n)

/-- Two variable records agree at every name other than `n`. -/
def varsAgreeExcept (n : String) (v₁ v₂ : List (String × String)) : Prop :=
  ∀ m, m ≠ n → rget v₁ m = rget v₂ m

/-- Two state maps have the same state names and their records agree at
every variable name other than `n`. -/
def svmAgreeExcept (n : String) (s₁ s₂ : SVMap) : Prop :=
  ∀ st, (rget s₁ st = none ∧ rget s₂ st = none) ∨
    (∃ r₁ r₂, rget s₁ st = some r₁ ∧ rget s₂ st = some r₂ ∧ varsAgreeExcept n r₁ r₂)

/-! ### Concrete inputs used by individual claims -/

/-- Source and meaning of the identity resolver `(cv) => cv`. -/
def idFnSrc : String := "(cv) => cv"

def idFnBody : String → Option String := fun cv => some cv

/-- The spec example `(cv, from="hover") => Number(cv) * 0.9`: source text
and meaning (exact rational arithmetic; on these inputs it prints the same
string as IEEE double arithmetic). -/
def activeFnSrc : String := "(cv, from=\"hover\") => Number(cv) * 0.9"

def activeFnBody : String → Option String :=
  fun cv => some (jsNumToString (jsMul (jsNumberOf cv) (jsNumberOf "0.9")))

/-- The cross-state example of the spec:
`{ __scale: 1, _hover: { __scale: 1.2 }, _active: { __scale: (cv, from="hover") => Number(cv) * 0.9 } }`. -/
def c3styles : List (String × StyleVal) :=
  [("__scale", .vNum (jsNumberOf "1")),
   ("_hover", .vObj [("__scale", .vNum (jsNumberOf "1.2"))]),
   ("_active", .vObj [("__scale", .vFn activeFnSrc activeFnBody)])]

/-- The compound-selector example `{ _hover: { _disabled: { __opacity: 0.5 } } }`. -/
def c8styles : List (String × StyleVal) :=
  [("_hover", .vObj [("_disabled", .vObj [("__opacity", .vNum (jsNumberOf "0.5"))])])]

def c8result : TransformResult := (transformStyles 10 c8styles {} none).1

def c8key : String := createStableHash 10 (.vObj c8styles)

/-- Root literal after the state branch that holds an identity resolver
for the same variable. -/
def c2after : List (String × StyleVal) :=
  [("_hover", .vObj [("__scale", .vFn idFnSrc idFnBody)]),
   ("__scale", .vNum (jsNumberOf "1"))]

/-- Two deeply equal descriptions differing only in insertion order. -/
def c1a : List (String × StyleVal) :=
  [("__a", .vNum (jsNumberOf "1")), ("__b", .vNum (jsNumberOf "2"))]

def c1b : List (String × StyleVal) :=
  [("__b", .vNum (jsNumberOf "2")), ("__a", .vNum (jsNumberOf "1"))]

/-- The CSS text the engine produces for a description: transform at the
root, render the rules under the identity key, join as the textual mode
of the injector does. -/
def cssTextFor (styles : List (String × StyleVal)) : String :=
  let r := (transformStyles 10 styles {} none).1
  joinWith "\n"
    (renderRules 10 (createStableHash 10 (.vObj styles)) r.CSSVars r.regularStyles r.pseudoClasses)
    ++ "\n"

def env0 : JsEnv := ⟨true, true, fun _ => false⟩

/-- Document state after one successful injection from the initial state. -/
def d1 : Dom := (injectCSS env0 5 ⟨none, []⟩ "vw-1" [("--a", "1")] [] []).1

/-- A rule-object-mode environment whose CSS parser rejects every rule
text handed to `insertRule` — as a browser does for each rule of a key
whose selectors it cannot parse, such as ones using a pseudo-class it
does not support. -/
def envRej : JsEnv := ⟨false, true, fun _ => true⟩

/-- Document state after injecting one keyed rule in that environment:
every `insertRule` call throws and is caught, yet the key is cached. -/
def dRej : Dom := (injectCSS envRej 5 ⟨none, []⟩ "vw-1" [("--a", "1")] [] []).1

/-! ## Theorems -/

/-- C3: for the input
`{ __scale: 1, _hover: { __scale: 1.2 }, _active: { __scale: (cv, from="hover") => Number(cv) * 0.9 } }`,
`transformStyles` resolves the active state variable `--scale` to the
string "1.08" (the hover value 1.2 times 0.9), not "0.9". -/
theorem c3_cross_state_reference :
    rget ((transformStyles 10 c3styles {} none).1.pseudoClasses) "active"
      = some [("--scale", "1.08")] ∧
    some [("--scale", "1.08")] ≠ some [("--scale", "0.9")] := by
  constructor
  · rfl
  · decide

set_option maxRecDepth 20000 in
/-- C8: for the input `{ _hover: { _disabled: { __opacity: 0.5 } } }` the
states map carries a top-level `hover:disabled` entry mapping
`--opacity` to "0.5", and the injector renders exactly the rule
`.<identityKey>:hover:disabled { --opacity: 0.5; }` for the identity key
of this description (the empty `hover` entry is skipped). -/
theorem c8_compound_selector :
    rget c8result.pseudoClasses "hover:disabled" = some [("--opacity", "0.5")] ∧
    renderRules 10 c8key c8result.CSSVars c8result.regularStyles c8result.pseudoClasses
      = ["." ++ c8key ++ ":hover:disabled \x7b --opacity: 0.5; \x7d"] := by
  constructor
  · rfl
  · rfl

/-- C2 counterexample: in
`{ _hover: { __scale: (cv) => cv }, __scale: 1 }` the root literal for
`--scale` stands after the `_hover` branch, and the identity resolver
inside the branch receives the empty string, not the ancestor literal
"1": the hover state resolves `--scale` to `""`, while the claim predicts
`"1"` regardless of insertion order. -/
theorem c2_counterexample :
    rget ((transformStyles 10 c2after {} none).1.pseudoClasses) "hover"
      = some [("--scale", "")] ∧
    (some [("--scale", "")] : Option (List (String × String)))
      ≠ some [("--scale", "1")] := by
  constructor
  · rfl
  · decide

/-- Fetching the style tag never changes the cache. -/
theorem fetchStyleTag_cache (env : JsEnv) (d : Dom) :
    (fetchStyleTag env d).2.styleCache = d.styleCache := by
  unfold fetchStyleTag
  cases d.styleTag <;> rfl

/-- When the key is not cached, the call never reports the cache-hit
return point. -/
theorem injectCSS_not_cached_snd (env : JsEnv) (fuel : Nat) (d : Dom) (hash : String)
    (cv : List (String × String)) (rs : List (String × StyleVal))
    (pc : List (String × List (String × String)))
    (h : hash ∉ d.styleCache) :
    (injectCSS env fuel d hash cv rs pc).2 ≠ .skippedCached := by
  have hc : d.styleCache.contains hash = false := by
    simpa using h
  unfold injectCSS
  rw [hc]
  simp only [Bool.false_eq_true, if_false]
  split
  · intro hcontra
    exact InjectOutcome.noConfusion (congrArg id hcontra)
  · split
    · intro hcontra
      exact InjectOutcome.noConfusion hcontra
    · split
      · intro hcontra
        exact InjectOutcome.noConfusion hcontra
      · intro hcontra
        exact InjectOutcome.noConfusion hcontra

/-- C4: a second `injectCSS` call whose identity key is already in the
injection cache is a no-op: it returns at the cache check, the state
(container content, rule list and cache alike) is exactly the state after
the first call. -/
theorem c4_inject_idempotent (env : JsEnv) (fuel : Nat) (d : Dom) (hash : String)
    (cv : List (String × String)) (rs : List (String × StyleVal))
    (pc : List (String × List (String × String)))
    (h : hash ∈ d.styleCache) :
    injectCSS env fuel d hash cv rs pc = (d, .skippedCached) := by
  have hc : d.styleCache.contains hash = true := by
    simpa using h
  unfold injectCSS
  rw [hc]
  simp

/-- C4 witness: after injecting "vw-1" into the empty document, the key
is cached and the repeated call leaves the state untouched. -/
theorem c4_inject_idempotent_witness :
    "vw-1" ∈ d1.styleCache ∧
    injectCSS env0 5 d1 "vw-1" [("--a", "1")] [] [] = (d1, .skippedCached) :=
  ⟨by decide, c4_inject_idempotent env0 5 d1 "vw-1" [("--a", "1")] [] [] (by decide)⟩

/-- C9: after a full reset, `getInjectedCSS` returns the empty string,
the cache is empty, and any following `injectCSS` call (in particular one
with a previously cached key) runs past the cache check instead of
treating the key as already injected. -/
theorem c9_reset (env : JsEnv) (fuel : Nat) (d : Dom) (hash : String)
    (cv : List (String × String)) (rs : List (String × StyleVal))
    (pc : List (String × List (String × String))) :
    getInjectedCSS env (removeStyles d) = "" ∧
    (removeStyles d).styleCache = [] ∧
    (injectCSS env fuel (removeStyles d) hash cv rs pc).2 ≠ .skippedCached := by
  refine ⟨rfl, rfl, ?_⟩
  exact injectCSS_not_cached_snd env fuel (removeStyles d) hash cv rs pc (by simp [removeStyles])

/-- C7: in rule-object mode, when the style tag exposes no
`CSSStyleSheet`, an uncached key with nonempty rules hits the always-on
error return: the call reports `errorNoSheet`, nothing is cached, and the
next call with the same key attempts injection again instead of an
already-injected cache hit. -/
theorem c7_no_sheet_not_cached (env : JsEnv) (fuel : Nat) (d : Dom) (hash : String)
    (cv : List (String × String)) (rs : List (String × StyleVal))
    (pc : List (String × List (String × String)))
    (hdev : env.isDev = false)
    (hsheet : (fetchStyleTag env d).1.hasSheet = false)
    (hnc : hash ∉ d.styleCache)
    (hne : renderRules fuel hash cv rs pc ≠ []) :
    injectCSS env fuel d hash cv rs pc = ((fetchStyleTag env d).2, .errorNoSheet) ∧
    hash ∉ (injectCSS env fuel d hash cv rs pc).1.styleCache ∧
    (injectCSS env fuel (injectCSS env fuel d hash cv rs pc).1 hash cv rs pc).2
      ≠ .skippedCached := by
  have hc : d.styleCache.contains hash = false := by
    simpa using hnc
  have hemp : (renderRules fuel hash cv rs pc).isEmpty = false := by
    simpa [List.isEmpty_iff] using hne
  have h1 : injectCSS env fuel d hash cv rs pc = ((fetchStyleTag env d).2, .errorNoSheet) := by
    unfold injectCSS
    rw [hc]
    simp [hemp, hdev, hsheet]
  have hcache : (injectCSS env fuel d hash cv rs pc).1.styleCache = d.styleCache := by
    rw [h1]
    exact fetchStyleTag_cache env d
  refine ⟨h1, ?_, ?_⟩
  · rw [hcache]
    exact hnc
  · exact injectCSS_not_cached_snd env fuel _ hash cv rs pc (by rw [hcache]; exact hnc)

/-- C7 witness: a fresh rule-object-mode document whose created tag has
no sheet, with one nonempty variable rule. -/
theorem c7_no_sheet_not_cached_witness :
    injectCSS ⟨false, false, fun _ => false⟩ 5 ⟨none, []⟩ "vw-1" [("--a", "1")] [] []
      = ((fetchStyleTag ⟨false, false, fun _ => false⟩ ⟨none, []⟩).2, .errorNoSheet) ∧
    "vw-1" ∉ (injectCSS ⟨false, false, fun _ => false⟩ 5 ⟨none, []⟩ "vw-1" [("--a", "1")] [] []).1.styleCache ∧
    (injectCSS ⟨false, false, fun _ => false⟩ 5
      (injectCSS ⟨false, false, fun _ => false⟩ 5 ⟨none, []⟩ "vw-1" [("--a", "1")] [] []).1
      "vw-1" [("--a", "1")] [] []).2 ≠ .skippedCached :=
  c7_no_sheet_not_cached ⟨false, false, fun _ => false⟩ 5 ⟨none, []⟩ "vw-1" [("--a", "1")] [] []
    rfl rfl (by decide) (by decide)

/-! ### Order lemmas for the key sort -/

theorem char_toNat_inj {a b : Char} (h : a.toNat = b.toNat) : a = b := by
  apply Char.eq_of_val_eq
  apply UInt32.eq_of_val_eq
  apply Fin.ext
  exact h

theorem charListLe_total : ∀ x y : List Char, charListLe x y = true ∨ charListLe y x = true
  | [], _ => Or.inl rfl
  | _ :: _, [] => Or.inr rfl
  | a :: as, b :: bs => by
      by_cases h1 : a.toNat < b.toNat
      · left
        simp [charListLe, h1]
      · by_cases h2 : b.toNat < a.toNat
        · right
          simp [charListLe, h1, h2]
        · rcases charListLe_total as bs with h | h
          · left
            simp [charListLe, h1, h2, h]
          · right
            simp [charListLe, h1, h2, h]

theorem charListLe_trans : ∀ x y z : List Char, charListLe x y = true →
    charListLe y z = true → charListLe x z = true
  | [], _, _, _, _ => rfl
  | _ :: _, [], _, h, _ => by simp [charListLe] at h
  | _ :: _, _ :: _, [], _, h => by simp [charListLe] at h
  | a :: as, b :: bs, c :: cs, h1, h2 => by
      simp only [charListLe] at h1 h2 ⊢
      by_cases hab : a.toNat < b.toNat
      · by_cases hbc : b.toNat < c.toNat
        · rw [if_pos (by omega : a.toNat < c.toNat)]
        · by_cases hcb : c.toNat < b.toNat
          · simp [hbc, hcb] at h2
          · rw [if_pos (by omega : a.toNat < c.toNat)]
      · by_cases hba : b.toNat < a.toNat
        · simp [hab, hba] at h1
        · by_cases hbc : b.toNat < c.toNat
          · rw [if_pos (by omega : a.toNat < c.toNat)]
          · by_cases hcb : c.toNat < b.toNat
            · simp [hbc, hcb] at h2
            · rw [if_neg (by omega : ¬a.toNat < c.toNat),
                  if_neg (by omega : ¬c.toNat < a.toNat)]
              simp [hab, hba] at h1
              simp [hbc, hcb] at h2
              exact charListLe_trans as bs cs h1 h2

theorem charListLe_antisymm : ∀ x y : List Char, charListLe x y = true →
    charListLe y x = true → x = y
  | [], [], _, _ => rfl
  | [], _ :: _, _, h2 => by simp [charListLe] at h2
  | _ :: _, [], h1, _ => by simp [charListLe] at h1
  | a :: as, b :: bs, h1, h2 => by
      simp only [charListLe] at h1 h2
      by_cases hab : a.toNat < b.toNat <;> by_cases hba : b.toNat < a.toNat <;>
        simp [hab, hba] at h1 h2
      · omega
      · have : a = b := char_toNat_inj (by omega)
        rw [this, charListLe_antisymm as bs h1 h2]

theorem string_ext {s t : String} (h : s.data = t.data) : s = t := by
  cases s
  cases t
  exact congrArg String.mk h

theorem strLe_total (x y : String) : strLe x y = true ∨ strLe y x = true :=
  charListLe_total x.data y.data

theorem strLe_trans {x y z : String} (h1 : strLe x y = true) (h2 : strLe y z = true) :
    strLe x z = true :=
  charListLe_trans x.data y.data z.data h1 h2

theorem strLe_antisymm {x y : String} (h1 : strLe x y = true) (h2 : strLe y x = true) :
    x = y :=
  string_ext (charListLe_antisymm x.data y.data h1 h2)

/-! ### Record lookup lemmas -/

theorem rget_cons {β : Type} (p : String × β) (l : List (String × β)) (k : String) :
    rget (p :: l) k = if p.1 == k then some p.2 else rget l k := by
  unfold rget
  rw [List.find?]
  cases hp : (p.1 == k) <;> simp [hp]

theorem rget_eq_some_mem {β : Type} {l : List (String × β)} {k : String} {v : β}
    (h : rget l k = some v) : (k, v) ∈ l := by
  unfold rget at h
  cases hf : l.find? (fun p => p.1 == k) with
  | none => rw [hf] at h; simp at h
  | some p =>
      rw [hf] at h
      simp at h
      have hpred := List.find?_some hf
      have hmem : p ∈ l := List.mem_of_find?_eq_some hf
      have : p = (k, v) := by
        cases p
        simp at hpred h
        simp [hpred, h]
      rwa [this] at hmem

theorem rget_mem_keys {β : Type} {l : List (String × β)} {k : String} {v : β}
    (h : rget l k = some v) : k ∈ l.map Prod.fst := by
  exact List.mem_map.mpr ⟨(k, v), rget_eq_some_mem h, rfl⟩

theorem rget_perm {β : Type} {l₁ l₂ : List (String × β)} (p : l₁.Perm l₂)
    (nd : (l₁.map Prod.fst).Nodup) (k : String) : rget l₁ k = rget l₂ k := by
  induction p with
  | nil => rfl
  | cons x _ ih =>
      rw [rget_cons, rget_cons]
      simp at nd
      rw [ih nd.2]
  | swap x y t =>
      rw [rget_cons, rget_cons, rget_cons, rget_cons]
      simp at nd
      have hxy : y.1 ≠ x.1 := nd.1.1
      by_cases h1 : y.1 == k <;> by_cases h2 : x.1 == k <;> simp [h1, h2]
      exact absurd (by rw [eq_of_beq h1, eq_of_beq h2] : y.1 = x.1) hxy
  | trans p1 p2 ih1 ih2 =>
      rw [ih1 nd]
      exact ih2 (((p1.map Prod.fst).nodup_iff).mp nd)

/-! ### Sorting lemmas -/

theorem sortByKey_perm (l : List (String × StyleVal)) : (sortByKey l).Perm l :=
  List.perm_insertionSort _ l

theorem sortByKey_sorted (l : List (String × StyleVal)) :
    (sortByKey l).Sorted (fun a b => strLe a.1 b.1 = true) := by
  haveI : IsTotal (String × StyleVal) (fun a b => strLe a.1 b.1 = true) :=
    ⟨fun a b => strLe_total a.1 b.1⟩
  haveI : IsTrans (String × StyleVal) (fun a b => strLe a.1 b.1 = true) :=
    ⟨fun _ _ _ h1 h2 => strLe_trans h1 h2⟩
  exact List.sorted_insertionSort _ l

theorem sortStrings_perm (l : List String) : (sortStrings l).Perm l :=
  List.perm_insertionSort _ l

theorem sortStrings_sorted (l : List String) :
    (sortStrings l).Sorted (fun a b => strLe a b = true) := by
  haveI : IsTotal String (fun a b => strLe a b = true) := ⟨strLe_total⟩
  haveI : IsTrans String (fun a b => strLe a b = true) :=
    ⟨fun _ _ _ h1 h2 => strLe_trans h1 h2⟩
  exact List.sorted_insertionSort _ l

/-- The keys of the sorted entry list are the sorted keys. -/
theorem sortByKey_map_fst (l : List (String × StyleVal)) :
    (sortByKey l).map Prod.fst = sortStrings (l.map Prod.fst) := by
  haveI : IsAntisymm String (fun a b => strLe a b = true) :=
    ⟨fun _ _ h1 h2 => strLe_antisymm h1 h2⟩
  exact List.eq_of_perm_of_sorted
    (((sortByKey_perm l).map Prod.fst).trans (sortStrings_perm (l.map Prod.fst)).symm)
    (show List.Sorted (fun a b => strLe a b = true) ((sortByKey l).map Prod.fst) from
      List.Pairwise.map Prod.fst (fun _ _ h => h) (sortByKey_sorted l))
    (sortStrings_sorted (l.map Prod.fst))

/-! ### Decimal printing respects fraction value -/

theorem nat_div_eq_of_cross {a b c d : Nat} (hb : 0 < b) (hd : 0 < d)
    (h : a * d = c * b) : a / b = c / d := by
  apply Nat.le_antisymm
  · apply (Nat.le_div_iff_mul_le hd).mpr
    have h1 : a / b * b ≤ a := Nat.div_mul_le_self a b
    have h2 : a / b * d * b ≤ c * b := by
      calc a / b * d * b = (a / b * b) * d := by ring
        _ ≤ a * d := Nat.mul_le_mul_right d h1
        _ = c * b := h
    exact Nat.le_of_mul_le_mul_right h2 hb
  · apply (Nat.le_div_iff_mul_le hb).mpr
    have h1 : c / d * d ≤ c := Nat.div_mul_le_self c d
    have h2 : c / d * b * d ≤ a * d := by
      calc c / d * b * d = (c / d * d) * b := by ring
        _ ≤ c * b := Nat.mul_le_mul_right b h1
        _ = a * d := h.symm
    exact Nat.le_of_mul_le_mul_right h2 hd

theorem nat_mod_cross {a b c d : Nat} (hb : 0 < b) (hd : 0 < d)
    (h : a * d = c * b) : (a % b) * d = (c % d) * b := by
  have e1 := Nat.div_add_mod a b
  have e2 := Nat.div_add_mod c d
  have e3 : a / b = c / d := nat_div_eq_of_cross hb hd h
  have ha : a % b = a - b * (a / b) := by
    exact (Nat.sub_eq_of_eq_add (by linarith)).symm
  have hc2 : c % d = c - d * (c / d) := by
    exact (Nat.sub_eq_of_eq_add (by linarith)).symm
  rw [ha, hc2, Nat.sub_mul, Nat.sub_mul, h]
  congr 1
  calc b * (a / b) * d = b * (c / d) * d := by rw [e3]
    _ = d * (c / d) * b := by ring

theorem fracDigits_cross : ∀ (fuel r₁ d₁ r₂ d₂ : Nat), 0 < d₁ → 0 < d₂ →
    r₁ * d₂ = r₂ * d₁ → fracDigits fuel r₁ d₁ = fracDigits fuel r₂ d₂
  | 0, _, _, _, _, _, _, _ => rfl
  | fuel + 1, r₁, d₁, r₂, d₂, h₁, h₂, hc => by
      rcases Nat.eq_zero_or_pos r₁ with hr | hr
      · subst hr
        have hz : r₂ * d₁ = 0 := by simpa using hc.symm
        rcases Nat.mul_eq_zero.mp hz with h0 | h0
        · subst h0
          rfl
        · omega
      · have hr₂ : 0 < r₂ := by
          rcases Nat.eq_zero_or_pos r₂ with h0 | h0
          · subst h0
            simp at hc
            rcases hc with h3 | h3 <;> omega
          · exact h0
        obtain ⟨s₁, rfl⟩ := Nat.exists_eq_succ_of_ne_zero (Nat.pos_iff_ne_zero.mp hr)
        obtain ⟨s₂, rfl⟩ := Nat.exists_eq_succ_of_ne_zero (Nat.pos_iff_ne_zero.mp hr₂)
        have hc10 : (s₁ + 1) * 10 * d₂ = (s₂ + 1) * 10 * d₁ := by
          calc (s₁ + 1) * 10 * d₂ = ((s₁ + 1) * d₂) * 10 := by ring
            _ = ((s₂ + 1) * d₁) * 10 := by rw [hc]
            _ = (s₂ + 1) * 10 * d₁ := by ring
        simp only [fracDigits]
        congr 1
        · rw [nat_div_eq_of_cross h₁ h₂ hc10]
        · exact fracDigits_cross fuel _ _ _ _ h₁ h₂ (nat_mod_cross h₁ h₂ hc10)

theorem ratReprNN_cross {n₁ d₁ n₂ d₂ : Nat} (h₁ : 0 < d₁) (h₂ : 0 < d₂)
    (hc : n₁ * d₂ = n₂ * d₁) :
    ratReprNN ⟨(n₁ : Int), d₁⟩ = ratReprNN ⟨(n₂ : Int), d₂⟩ := by
  unfold ratReprNN
  simp only [Int.toNat_natCast]
  rw [nat_div_eq_of_cross h₁ h₂ hc,
      fracDigits_cross 40 _ _ _ _ h₁ h₂ (nat_mod_cross h₁ h₂ hc)]

theorem ratRepr_eq_of_jsRatEq {a b : JsRat} (ha : a.den ≠ 0) (hb : b.den ≠ 0)
    (h : jsRatEq a b = true) : ratRepr a = ratRepr b := by
  obtain ⟨an, ad⟩ := a
  obtain ⟨bn, bd⟩ := b
  simp only [jsRatEq] at h
  have hc : an * (bd : Int) = bn * (ad : Int) := by simpa using h
  simp only at ha hb
  have hda : (0 : Int) < (ad : Int) := by exact_mod_cast Nat.pos_of_ne_zero ha
  have hdb : (0 : Int) < (bd : Int) := by exact_mod_cast Nat.pos_of_ne_zero hb
  unfold ratRepr
  simp only
  by_cases hn : an < 0
  · have hn₂ : bn < 0 := by
      by_contra h0
      push_neg at h0
      have h1 : an * (bd : Int) < 0 := mul_neg_of_neg_of_pos hn hdb
      rw [hc] at h1
      exact absurd h1 (not_lt.mpr (mul_nonneg h0 (le_of_lt hda)))
    rw [if_pos hn, if_pos hn₂]
    have e₁ : (⟨-an, ad⟩ : JsRat) = ⟨(((-an).toNat : Nat) : Int), ad⟩ := by
      rw [Int.toNat_of_nonneg (by omega)]
    have e₂ : (⟨-bn, bd⟩ : JsRat) = ⟨(((-bn).toNat : Nat) : Int), bd⟩ := by
      rw [Int.toNat_of_nonneg (by omega)]
    rw [e₁, e₂]
    congr 1
    apply ratReprNN_cross (Nat.pos_of_ne_zero ha) (Nat.pos_of_ne_zero hb)
    have hi : (((-an).toNat : Nat) : Int) * bd = (((-bn).toNat : Nat) : Int) * ad := by
      rw [Int.toNat_of_nonneg (by omega : (0 : Int) ≤ -an),
          Int.toNat_of_nonneg (by omega : (0 : Int) ≤ -bn)]
      linarith
    exact_mod_cast hi
  · have hn₂ : ¬bn < 0 := by
      intro h0
      have h1 : bn * (ad : Int) < 0 := mul_neg_of_neg_of_pos h0 hda
      rw [← hc] at h1
      exact absurd h1 (not_lt.mpr (mul_nonneg (by omega) (le_of_lt hdb)))
    rw [if_neg hn, if_neg hn₂]
    have e₁ : (⟨an, ad⟩ : JsRat) = ⟨((an.toNat : Nat) : Int), ad⟩ := by
      rw [Int.toNat_of_nonneg (by omega)]
    have e₂ : (⟨bn, bd⟩ : JsRat) = ⟨((bn.toNat : Nat) : Int), bd⟩ := by
      rw [Int.toNat_of_nonneg (by omega)]
    rw [e₁, e₂]
    apply ratReprNN_cross (Nat.pos_of_ne_zero ha) (Nat.pos_of_ne_zero hb)
    have hi : ((an.toNat : Nat) : Int) * bd = ((bn.toNat : Nat) : Int) * ad := by
      rw [Int.toNat_of_nonneg (by omega : (0 : Int) ≤ an),
          Int.toNat_of_nonneg (by omega : (0 : Int) ≤ bn)]
      exact hc
    exact_mod_cast hi

/-! ### Determinism of the stable serialization -/

theorem nodupKeys_iff : ∀ l : List String, nodupKeys l = true ↔ l.Nodup
  | [] => by simp [nodupKeys]
  | k :: rest => by
      simp [nodupKeys, nodupKeys_iff rest, List.nodup_cons]

/-- Mapping an entrywise function over two key-aligned duplicate-free
lists whose lookups agree under `g`. -/
theorem map_eq_of_keys_eq {β : Type} (g : String × StyleVal → β) :
    ∀ (L M : List (String × StyleVal)), L.map Prod.fst = M.map Prod.fst →
      (L.map Prod.fst).Nodup →
      (∀ k va vb, rget L k = some va → rget M k = some vb → g (k, va) = g (k, vb)) →
      L.map g = M.map g
  | [], [], _, _, _ => rfl
  | [], _ :: _, hk, _, _ => by simp at hk
  | _ :: _, [], hk, _, _ => by simp at hk
  | (k, va) :: L, (k2, vb) :: M, hk, hnd, hg => by
      simp only [List.map_cons, List.cons.injEq] at hk
      obtain ⟨hkk, hktail⟩ := hk
      subst hkk
      simp only [List.map_cons, List.nodup_cons] at hnd
      obtain ⟨hkn, hndL⟩ := hnd
      have h1 : rget ((k, va) :: L) k = some va := by
        rw [rget_cons]
        simp
      have h2 : rget ((k, vb) :: M) k = some vb := by
        rw [rget_cons]
        simp
      simp only [List.map_cons]
      congr 1
      · exact hg k va vb h1 h2
      · apply map_eq_of_keys_eq g L M hktail hndL
        intro k' va' vb' hva hvb
        have hk' : k' ∈ L.map Prod.fst := rget_mem_keys hva
        have hkk' : ¬((k == k') = true) := by
          intro hbeq
          exact hkn (eq_of_beq hbeq ▸ hk')
        apply hg k' va' vb'
        · rw [rget_cons, if_neg hkk']
          exact hva
        · rw [rget_cons, if_neg hkk']
          exact hvb

/-- Mapping over two lists of equal length with pointwise-equal images on
the zip. -/
theorem map_congr_zip {α β : Type} (g : α → β) :
    ∀ (xs ys : List α), xs.length = ys.length →
      (∀ p ∈ List.zip xs ys, g p.1 = g p.2) → xs.map g = ys.map g
  | [], [], _, _ => rfl
  | [], _ :: _, h, _ => by simp at h
  | _ :: _, [], h, _ => by simp at h
  | x :: xs, y :: ys, h, hp => by
      simp only [List.map_cons]
      congr 1
      · exact hp (x, y) (by simp [List.zip_cons_cons])
      · refine map_congr_zip g xs ys (by simpa using h) ?_
        intro p hp2
        exact hp p (by simp [List.zip_cons_cons, hp2])

/-- Two well-formed, key-order-independently deeply equal values have
byte-identical stable serializations. -/
theorem toStableString_eq_of_deepEq :
    ∀ (f : Nat) (a b : StyleVal), wfKeys f a = true → wfKeys f b = true →
      deepEqB f a b = true → toStableString f a = toStableString f b := by
  intro f
  induction f with
  | zero =>
      intro a b _ _ hab
      simp [deepEqB] at hab
  | succ f ih =>
      intro a b ha hb hab
      cases a with
      | vNull =>
          cases b <;> simp [deepEqB] at hab <;> rfl
      | vBool x =>
          cases b <;> simp [deepEqB] at hab
          rw [hab]
      | vNum x =>
          cases b <;> simp only [deepEqB] at hab <;> try simp at hab
          case vNum y =>
            cases x <;> cases y <;> simp only [jsNumEq] at hab <;> try simp at hab
            · rfl
            · case some.some q₁ q₂ =>
                simp only [wfKeys, bne_iff_ne, ne_eq] at ha hb
                show ratRepr q₁ = ratRepr q₂
                exact ratRepr_eq_of_jsRatEq ha hb hab
      | vStr s =>
          cases b <;> simp [deepEqB] at hab
          rw [hab]
      | vFn src body =>
          cases b <;> simp [deepEqB] at hab
          case vFn t body2 =>
            show jsonQuote (collapseWs src) = jsonQuote (collapseWs t)
            rw [hab]
      | vArr es =>
          cases b <;> simp [deepEqB] at hab
          case vArr ys =>
            obtain ⟨hlen, hzip⟩ := hab
            simp only [wfKeys, List.all_eq_true] at ha hb
            show "[" ++ joinWith "," (es.map (toStableString f)) ++ "]"
              = "[" ++ joinWith "," (ys.map (toStableString f)) ++ "]"
            rw [map_congr_zip (toStableString f) es ys hlen ?_]
            intro p hp
            obtain ⟨p1, p2⟩ := p
            have hmem := List.of_mem_zip hp
            exact ih p1 p2 (ha p1 hmem.1) (hb p2 hmem.2) (hzip p1 p2 hp)
      | vObj xs =>
          cases b <;> simp [deepEqB] at hab
          case vObj ys =>
            obtain ⟨hs, hall⟩ := hab
            simp only [wfKeys, Bool.and_eq_true, List.all_eq_true] at ha hb
            obtain ⟨hnda, hwfa⟩ := ha
            obtain ⟨hndb, hwfb⟩ := hb
            have nda : (xs.map Prod.fst).Nodup := (nodupKeys_iff _).mp hnda
            have ndb : (ys.map Prod.fst).Nodup := (nodupKeys_iff _).mp hndb
            have ndsx : ((sortByKey xs).map Prod.fst).Nodup := by
              rw [sortByKey_map_fst]
              exact ((sortStrings_perm _).nodup_iff).mpr nda
            have ndsy : ((sortByKey ys).map Prod.fst).Nodup := by
              rw [sortByKey_map_fst]
              exact ((sortStrings_perm _).nodup_iff).mpr ndb
            show "\x7b" ++ joinWith ","
                ((sortByKey xs).map (fun p => jsonQuote p.1 ++ ":" ++ toStableString f p.2))
                ++ "\x7d"
              = "\x7b" ++ joinWith ","
                ((sortByKey ys).map (fun p => jsonQuote p.1 ++ ":" ++ toStableString f p.2))
                ++ "\x7d"
            rw [map_eq_of_keys_eq
              (fun p => jsonQuote p.1 ++ ":" ++ toStableString f p.2)
              (sortByKey xs) (sortByKey ys) ?_ ndsx ?_]
            · rw [sortByKey_map_fst, sortByKey_map_fst, hs]
            · intro k va vb hva hvb
              have hvax : rget xs k = some va := by
                rw [← rget_perm (sortByKey_perm xs) ndsx k]
                exact hva
              have hvby : rget ys k = some vb := by
                rw [← rget_perm (sortByKey_perm ys) ndsy k]
                exact hvb
              have hk2 := hall k va (rget_eq_some_mem hvax)
              rw [hvax, hvby] at hk2
              have hd : deepEqB f va vb = true := hk2
              have hwva : wfKeys f va = true := hwfa (k, va) (rget_eq_some_mem hvax)
              have hwvb : wfKeys f vb = true := hwfb (k, vb) (rget_eq_some_mem hvby)
              simp only []
              rw [ih va vb hwva hwvb hd]

set_option maxRecDepth 40000 in
/-- C1 counterexample: the two deeply equal descriptions
`{ __a: 1, __b: 2 }` and `{ __b: 2, __a: 1 }` receive the same identity
key, but the CSS rule text produced for them is not byte-identical: the
declarations inside the base rule follow insertion order
(`--a: 1; --b: 2;` against `--b: 2; --a: 1;`). -/
theorem c1_counterexample :
    deepEqB 5 (.vObj c1a) (.vObj c1b) = true ∧
    createStableHash 10 (.vObj c1a) = createStableHash 10 (.vObj c1b) ∧
    cssTextFor c1a ≠ cssTextFor c1b := by
  refine ⟨by decide, by decide, by decide⟩

/-- C1 amended: for every two well-formed style description values that
are deeply equal under key-order-independent comparison, the identity key
`createStableHash` produces is identical (the serializer sorts keys at
every depth, so the hashed text coincides); the produced CSS rule text is
byte-identical only when the two descriptions also agree on entry
insertion order, since rendered declarations follow it. -/
theorem c1_identity_key_deterministic (f : Nat) (a b : StyleVal)
    (ha : wfKeys f a = true) (hb : wfKeys f b = true)
    (hab : deepEqB f a b = true) :
    createStableHash f a = createStableHash f b := by
  unfold createStableHash
  rw [toStableString_eq_of_deepEq f a b ha hb hab]

set_option maxRecDepth 40000 in
/-- C1 witness: the amended determinism applied to the reordered pair. -/
theorem c1_identity_key_deterministic_witness :
    wfKeys 5 (.vObj c1a) = true ∧ wfKeys 5 (.vObj c1b) = true ∧
    deepEqB 5 (.vObj c1a) (.vObj c1b) = true ∧
    createStableHash 5 (.vObj c1a) = createStableHash 5 (.vObj c1b) :=
  ⟨by decide, by decide, by decide,
    c1_identity_key_deterministic 5 (.vObj c1a) (.vObj c1b)
      (by decide) (by decide) (by decide)⟩

/-! ### Entries the transformer silently drops -/

theorem foldl_skip {α β : Type} (f : α → β → α) (x : β) (pre post : List β) (i : α)
    (hid : ∀ st, f st x = st) :
    List.foldl f i (pre ++ x :: post) = List.foldl f i (pre ++ post) := by
  rw [List.foldl_append, List.foldl_append, List.foldl_cons, hid]

theorem pass1Step_dropped (fuel : Nat)
    (rec : List (String × StyleVal) → TransformContext → Option SVMap →
      TransformResult × SVMap × List Diag)
    (ctx : TransformContext) (st : P1State) (key : String) (v : StyleVal)
    (hk : startsWithUU key = true) (hv : isDroppedVal v = true) :
    pass1Step fuel rec ctx st (key, v) = st := by
  cases v <;> simp [isDroppedVal] at hv <;> simp [pass1Step, hk]

theorem pass2Step_not_fn (ctx : TransformContext) (st : P2State) (key : String)
    (v : StyleVal) (hv : isDroppedVal v = true) :
    pass2Step ctx st (key, v) = st := by
  cases v <;> first
    | rfl
    | simp [isDroppedVal] at hv

/-- C10: a variable key (double-underscore prefixed) whose value is
neither a string, a number, nor a function contributes nothing: the whole
transformation — variables, properties, states, state snapshots and the
emitted diagnostics alike — equals the transformation of the description
without that entry. -/
theorem c10_dropped_entry (fuel : Nat) (ctx : TransformContext) (svmIn : Option SVMap)
    (pre post : List (String × StyleVal)) (key : String) (v : StyleVal)
    (hk : startsWithUU key = true) (hv : isDroppedVal v = true) :
    transformStyles fuel (pre ++ (key, v) :: post) ctx svmIn
      = transformStyles fuel (pre ++ post) ctx svmIn := by
  cases fuel with
  | zero => rfl
  | succ f =>
      simp only [transformStyles]
      rw [foldl_skip (pass1Step f (transformStyles f) ctx) (key, v) pre post _
            (fun st => pass1Step_dropped f _ ctx st key v hk hv),
          foldl_skip (pass2Step ctx) (key, v) pre post _
            (fun st => pass2Step_not_fn ctx st key v hv)]

/-- C10 witness: a boolean-valued variable key between two kept entries
drops out entirely. -/
theorem c10_dropped_entry_witness :
    startsWithUU "__flag" = true ∧ isDroppedVal (.vBool true) = true ∧
    transformStyles 5
        ([("__a", .vNum (jsNumberOf "1"))] ++ ("__flag", .vBool true) :: [("color", .vStr "red")])
        {} none
      = transformStyles 5 ([("__a", .vNum (jsNumberOf "1"))] ++ [("color", .vStr "red")]) {} none :=
  ⟨rfl, rfl,
    c10_dropped_entry 5 {} none [("__a", .vNum (jsNumberOf "1"))] [("color", .vStr "red")]
      "__flag" (.vBool true) rfl rfl⟩

/-! ### Record update lemmas -/

theorem bool_eq_false {b : Bool} (h : ¬(b = true)) : b = false := by
  cases b
  · rfl
  · exact absurd rfl h

theorem rset_cons_ne {β : Type} (p : String × β) (m : List (String × β)) (k : String)
    (v : β) (hp : (p.1 == k) = false) :
    rset (p :: m) k v = p :: rset m k v := by
  have hp2 : ¬(p.1 = k) := by simpa using hp
  unfold rset
  simp only [List.any_cons, hp, Bool.false_or]
  cases hm : m.any (fun q => q.1 == k) <;> simp [hp, hp2, hm]

theorem rget_map_update_ne {β : Type} (m : List (String × β)) (k j : String) (v : β)
    (hkj : (k == j) = false) :
    rget (m.map (fun q => if q.1 == k then (k, v) else q)) j = rget m j := by
  induction m with
  | nil => rfl
  | cons q m ih =>
      simp only [List.map_cons]
      by_cases hq : (q.1 == k) = true
      · rw [if_pos hq, rget_cons, rget_cons]
        have hqj : (q.1 == j) = false := by
          rw [eq_of_beq hq]
          exact hkj
        rw [if_neg (by simp [hkj]), if_neg (by simp [hqj])]
        exact ih
      · rw [if_neg hq, rget_cons, rget_cons]
        by_cases hqj : (q.1 == j) = true
        · rw [if_pos hqj, if_pos hqj]
        · rw [if_neg hqj, if_neg hqj]
          exact ih

theorem rget_rset_self {β : Type} (m : List (String × β)) (k : String) (v : β) :
    rget (rset m k v) k = some v := by
  induction m with
  | nil => simp [rset, rget, List.find?]
  | cons p m ih =>
      by_cases hp : (p.1 == k) = true
      · unfold rset
        rw [if_pos (by simp [List.any_cons, hp])]
        simp only [List.map_cons, hp, if_true]
        rw [rget_cons]
        simp
      · rw [rset_cons_ne p m k v (bool_eq_false hp), rget_cons, if_neg hp]
        exact ih

theorem rget_rset_ne {β : Type} (m : List (String × β)) (k : String) (v : β) (j : String)
    (hj : j ≠ k) :
    rget (rset m k v) j = rget m j := by
  have hkj : (k == j) = false := by
    simp only [beq_eq_false_iff_ne, ne_eq]
    exact fun h => hj h.symm
  induction m with
  | nil => simp [rset, rget, List.find?, hkj]
  | cons p m ih =>
      by_cases hp : (p.1 == k) = true
      · unfold rset
        rw [if_pos (by simp [List.any_cons, hp])]
        simp only [List.map_cons, hp, if_true]
        rw [rget_cons, rget_cons]
        have hpj : (p.1 == j) = false := by
          rw [eq_of_beq hp]
          exact hkj
        rw [if_neg (by simp [hkj]), if_neg (by simp [hpj])]
        exact rget_map_update_ne m k j v hkj
      · rw [rset_cons_ne p m k v (bool_eq_false hp), rget_cons, rget_cons]
        by_cases hpj : (p.1 == j) = true
        · rw [if_pos hpj, if_pos hpj]
        · rw [if_neg hpj, if_neg hpj]
          exact ih

/-! ### Agreement relations for resolver non-interference -/

theorem varsAgreeExcept_refl (n : String) (v : List (String × String)) :
    varsAgreeExcept n v v := fun _ _ => rfl

theorem svmAgreeExcept_refl (n : String) (s : SVMap) : svmAgreeExcept n s s := by
  intro st
  cases h : rget s st with
  | none => exact Or.inl ⟨rfl, rfl⟩
  | some r => exact Or.inr ⟨r, r, rfl, rfl, varsAgreeExcept_refl n r⟩

/-- Setting a key on both sides preserves agreement: with equal values at
any key, or with arbitrary values at the excepted name. -/
theorem varsAgreeExcept_rset {n : String} {v₁ v₂ : List (String × String)}
    (h : varsAgreeExcept n v₁ v₂) (k x y : String) (hxy : k ≠ n → x = y) :
    varsAgreeExcept n (rset v₁ k x) (rset v₂ k y) := by
  intro m hm
  by_cases hmk : m = k
  · subst hmk
    rw [rget_rset_self, rget_rset_self, hxy hm]
  · rw [rget_rset_ne v₁ k x m hmk, rget_rset_ne v₂ k y m hmk]
    exact h m hm

theorem svmAgreeExcept_setBase_left {n : String} {s₁ s₂ : SVMap}
    (h : svmAgreeExcept n s₁ s₂) (x : String) :
    svmAgreeExcept n (svmSetBase s₁ n x) s₂ := by
  unfold svmSetBase
  cases hb : rget s₁ "base" with
  | none => exact h
  | some r =>
      intro st
      by_cases hst : st = "base"
      · subst hst
        rcases h "base" with ⟨h1, _⟩ | ⟨r₁, r₂, h1, h2, h3⟩
        · rw [hb] at h1
          cases h1
        · rw [hb] at h1
          injection h1 with h1
          subst h1
          refine Or.inr ⟨rset r n x, r₂, ?_, h2, ?_⟩
          · exact rget_rset_self s₁ "base" (rset r n x)
          · intro m hm
            rw [rget_rset_ne r n x m hm]
            exact h3 m hm
      · have := h st
        rwa [← rget_rset_ne s₁ "base" (rset r n x) st hst] at this

theorem svmAgreeExcept_setBase_right {n : String} {s₁ s₂ : SVMap}
    (h : svmAgreeExcept n s₁ s₂) (x : String) :
    svmAgreeExcept n s₁ (svmSetBase s₂ n x) := by
  unfold svmSetBase
  cases hb : rget s₂ "base" with
  | none => exact h
  | some r =>
      intro st
      by_cases hst : st = "base"
      · subst hst
        rcases h "base" with ⟨_, h2⟩ | ⟨r₁, r₂, h1, h2, h3⟩
        · rw [hb] at h2
          cases h2
        · rw [hb] at h2
          injection h2 with h2
          subst h2
          refine Or.inr ⟨r₁, rset r n x, h1, ?_, ?_⟩
          · exact rget_rset_self s₂ "base" (rset r n x)
          · intro m hm
            rw [rget_rset_ne r n x m hm]
            exact h3 m hm
      · have := h st
        rwa [← rget_rset_ne s₂ "base" (rset r n x) st hst] at this

/-- Updating the base snapshot on both sides with the same value at any
variable name preserves agreement. -/
theorem svmAgreeExcept_setBase_both {n : String} {s₁ s₂ : SVMap}
    (h : svmAgreeExcept n s₁ s₂) (k x : String) :
    svmAgreeExcept n (svmSetBase s₁ k x) (svmSetBase s₂ k x) := by
  unfold svmSetBase
  rcases h "base" with ⟨h1, h2⟩ | ⟨r₁, r₂, h1, h2, h3⟩
  · rw [h1, h2]
    exact h
  · rw [h1, h2]
    intro st
    by_cases hst : st = "base"
    · subst hst
      refine Or.inr ⟨rset r₁ k x, rset r₂ k x,
        rget_rset_self s₁ "base" _, rget_rset_self s₂ "base" _, ?_⟩
      exact varsAgreeExcept_rset h3 k x x (fun _ => rfl)
    · have := h st
      rw [← rget_rset_ne s₁ "base" (rset r₁ k x) st hst,
          ← rget_rset_ne s₂ "base" (rset r₂ k x) st hst] at this
      exact this

/-- The received current value reads the state only at the resolved
variable name, so states agreeing away from `n` give equal values for any
other variable. -/
theorem pass2CurrentValue_agree (ctx : TransformContext) {n : String} (varName : String)
    (fromState : Option String) (hvn : varName ≠ n)
    {v₁ v₂ : List (String × String)} {s₁ s₂ : SVMap}
    (hv : varsAgreeExcept n v₁ v₂) (hs : svmAgreeExcept n s₁ s₂) :
    pass2CurrentValue ctx v₁ s₁ varName fromState
      = pass2CurrentValue ctx v₂ s₂ varName fromState := by
  cases fromState with
  | some fs =>
      simp only [pass2CurrentValue]
      rcases hs fs with ⟨h1, h2⟩ | ⟨r₁, r₂, h1, h2, h3⟩
      · rw [h1, h2]
      · rw [h1, h2]
        show (rget r₁ varName).getD "" = (rget r₂ varName).getD ""
        rw [h3 varName hvn]
  | none =>
      simp only [pass2CurrentValue]
      cases ctx.parentVars with
      | some pv => cases rget pv varName <;> simp [hv varName hvn]
      | none => rw [hv varName hvn]

/-- One second-pass step on the same entry preserves agreement away from
`n`: the step reads and writes the maps only at its own variable name. -/
theorem pass2Step_agree (ctx : TransformContext) {n : String} (e : String × StyleVal)
    {st₁ st₂ : P2State}
    (hv : varsAgreeExcept n st₁.vars st₂.vars)
    (hs : svmAgreeExcept n st₁.svm st₂.svm) :
    varsAgreeExcept n (pass2Step ctx st₁ e).vars (pass2Step ctx st₂ e).vars ∧
    svmAgreeExcept n (pass2Step ctx st₁ e).svm (pass2Step ctx st₂ e).svm := by
  obtain ⟨key, val⟩ := e
  cases val with
  | vFn src body =>
      by_cases hk : startsWithUU key = true
      · simp only [pass2Step, hk, if_true]
        by_cases hvn : "--" ++ toKebabCase (strDrop key 2) = n
        · -- writes land on the excepted name; branches may differ
          subst hvn
          cases body (pass2CurrentValue ctx st₁.vars st₁.svm _ (extractFromParam src)) <;>
            cases body (pass2CurrentValue ctx st₂.vars st₂.svm _ (extractFromParam src)) <;>
            simp only [] <;>
            refine ⟨varsAgreeExcept_rset hv _ _ _ (fun hne => absurd rfl hne), ?_⟩
          · exact hs
          · split
            · exact svmAgreeExcept_setBase_right hs _
            · exact hs
          · split
            · exact svmAgreeExcept_setBase_left hs _
            · exact hs
          · split
            · exact svmAgreeExcept_setBase_right (svmAgreeExcept_setBase_left hs _) _
            · exact hs
        · have hcv := pass2CurrentValue_agree ctx ("--" ++ toKebabCase (strDrop key 2))
            (extractFromParam src) hvn hv hs
          rw [hcv]
          cases body (pass2CurrentValue ctx st₂.vars st₂.svm _ (extractFromParam src)) with
          | some out =>
              simp only []
              refine ⟨varsAgreeExcept_rset hv _ _ _ (fun _ => rfl), ?_⟩
              split
              · exact svmAgreeExcept_setBase_both hs _ _
              · exact hs
          | none =>
              simp only []
              exact ⟨varsAgreeExcept_rset hv _ _ _ (fun _ => rfl), hs⟩
      · simp only [pass2Step, hk]
        exact ⟨hv, hs⟩
  | vNull => exact ⟨hv, hs⟩
  | vBool b => exact ⟨hv, hs⟩
  | vNum q => exact ⟨hv, hs⟩
  | vStr s => exact ⟨hv, hs⟩
  | vObj es => exact ⟨hv, hs⟩
  | vArr es => exact ⟨hv, hs⟩

/-- Folding the second pass over a common suffix preserves agreement. -/
theorem foldl_pass2_agree (ctx : TransformContext) {n : String} :
    ∀ (l : List (String × StyleVal)) {st₁ st₂ : P2State},
      varsAgreeExcept n st₁.vars st₂.vars → svmAgreeExcept n st₁.svm st₂.svm →
      varsAgreeExcept n (l.foldl (pass2Step ctx) st₁).vars
          (l.foldl (pass2Step ctx) st₂).vars ∧
        svmAgreeExcept n (l.foldl (pass2Step ctx) st₁).svm
          (l.foldl (pass2Step ctx) st₂).svm
  | [], _, _, hv, hs => ⟨hv, hs⟩
  | e :: l, st₁, st₂, hv, hs => by
      have hstep := pass2Step_agree ctx e hv hs
      exact foldl_pass2_agree ctx l hstep.1 hstep.2

/-- A second-pass step for an entry that is not a function variable for
`n` leaves the resolved value of `n` unchanged. -/
theorem pass2Step_preserves_at (ctx : TransformContext) (n : String)
    (e : String × StyleVal) (st : P2State) (he : isFnVarFor n e = false) :
    rget (pass2Step ctx st e).vars n = rget st.vars n := by
  obtain ⟨key, val⟩ := e
  cases val with
  | vFn src body =>
      by_cases hk : startsWithUU key = true
      · have hne : "--" ++ toKebabCase (strDrop key 2) ≠ n := by
          intro hcontra
          rw [isFnVarFor, hk] at he
          simp [hcontra] at he
        simp only [pass2Step, hk, if_true]
        cases body (pass2CurrentValue ctx st.vars st.svm _ (extractFromParam src)) <;>
          simp only [] <;>
          exact rget_rset_ne st.vars _ _ n (fun h => hne h.symm)
      · simp [pass2Step, hk]
  | vNull => rfl
  | vBool b => rfl
  | vNum q => rfl
  | vStr s => rfl
  | vObj es => rfl
  | vArr es => rfl

theorem foldl_pass2_preserves_at (ctx : TransformContext) (n : String) :
    ∀ (l : List (String × StyleVal)) (st : P2State),
      (∀ e ∈ l, isFnVarFor n e = false) →
      rget ((l.foldl (pass2Step ctx) st)).vars n = rget st.vars n
  | [], _, _ => rfl
  | e :: l, st, h => by
      rw [List.foldl_cons,
        foldl_pass2_preserves_at ctx n l _ (fun x hx => h x (List.mem_cons_of_mem e hx)),
        pass2Step_preserves_at ctx n e st (h e (List.mem_cons_self e l))]

/-- The first pass skips function-valued variable keys entirely. -/
theorem pass1Step_fn (fuel : Nat)
    (rec : List (String × StyleVal) → TransformContext → Option SVMap →
      TransformResult × SVMap × List Diag)
    (ctx : TransformContext) (st : P1State) (key src : String)
    (body : String → Option String) (hk : startsWithUU key = true) :
    pass1Step fuel rec ctx st (key, .vFn src body) = st := by
  simp [pass1Step, hk]

/-- The same second-pass step from the same state with two different
resolver bodies produces states agreeing away from the resolved name. -/
theorem pass2Step_two_bodies (ctx : TransformContext) (key src : String)
    (b₁ b₂ : String → Option String) (st : P2State) (hk : startsWithUU key = true) :
    varsAgreeExcept ("--" ++ toKebabCase (strDrop key 2))
        (pass2Step ctx st (key, .vFn src b₁)).vars
        (pass2Step ctx st (key, .vFn src b₂)).vars ∧
      svmAgreeExcept ("--" ++ toKebabCase (strDrop key 2))
        (pass2Step ctx st (key, .vFn src b₁)).svm
        (pass2Step ctx st (key, .vFn src b₂)).svm := by
  simp only [pass2Step, hk, if_true]
  cases b₁ (pass2CurrentValue ctx st.vars st.svm _ (extractFromParam src)) <;>
    cases b₂ (pass2CurrentValue ctx st.vars st.svm _ (extractFromParam src)) <;>
    simp only [] <;>
    refine ⟨varsAgreeExcept_rset (varsAgreeExcept_refl _ _) _ _ _
      (fun hne => absurd rfl hne), ?_⟩
  · exact svmAgreeExcept_refl _ _
  · split
    · exact svmAgreeExcept_setBase_right (svmAgreeExcept_refl _ _) _
    · exact svmAgreeExcept_refl _ _
  · split
    · exact svmAgreeExcept_setBase_left (svmAgreeExcept_refl _ _) _
    · exact svmAgreeExcept_refl _ _
  · split
    · exact svmAgreeExcept_setBase_right
        (svmAgreeExcept_setBase_left (svmAgreeExcept_refl _ _) _) _
    · exact svmAgreeExcept_refl _ _

/-- C6: an exception inside a resolver is caught per-variable
(transform.ts lines 135-138): the variable of the failing entry resolves
to the empty string (no later function entry resolves the same name), and
every sibling output — every other variable, all regular styles and all
state maps — is exactly what the same description with any other resolver
body at that entry produces; the embedded transformation is total, so the
whole call never raises. -/
theorem c6_resolver_throw_graceful (fuel : Nat) (ctx : TransformContext)
    (svmIn : Option SVMap) (pre post : List (String × StyleVal)) (key src : String)
    (body₂ : String → Option String)
    (hfuel : 0 < fuel)
    (hk : startsWithUU key = true)
    (hpost : ∀ e ∈ post, isFnVarFor ("--" ++ toKebabCase (strDrop key 2)) e = false) :
    rget (transformStyles fuel (pre ++ (key, .vFn src (fun _ => none)) :: post)
        ctx svmIn).1.CSSVars ("--" ++ toKebabCase (strDrop key 2)) = some "" ∧
    (∀ m, m ≠ "--" ++ toKebabCase (strDrop key 2) →
      rget (transformStyles fuel (pre ++ (key, .vFn src (fun _ => none)) :: post)
          ctx svmIn).1.CSSVars m
        = rget (transformStyles fuel (pre ++ (key, .vFn src body₂) :: post)
            ctx svmIn).1.CSSVars m) ∧
    (transformStyles fuel (pre ++ (key, .vFn src (fun _ => none)) :: post)
        ctx svmIn).1.regularStyles
      = (transformStyles fuel (pre ++ (key, .vFn src body₂) :: post) ctx svmIn).1.regularStyles ∧
    (transformStyles fuel (pre ++ (key, .vFn src (fun _ => none)) :: post)
        ctx svmIn).1.pseudoClasses
      = (transformStyles fuel (pre ++ (key, .vFn src body₂) :: post) ctx svmIn).1.pseudoClasses := by
  obtain ⟨f, rfl⟩ : ∃ f, fuel = f + 1 := ⟨fuel - 1, by omega⟩
  have hp1 : ∀ (b : String → Option String) (init : P1State),
      List.foldl (pass1Step f (transformStyles f) ctx) init (pre ++ (key, .vFn src b) :: post)
        = List.foldl (pass1Step f (transformStyles f) ctx) init (pre ++ post) :=
    fun b init =>
      foldl_skip (pass1Step f (transformStyles f) ctx) (key, .vFn src b) pre post init
        (fun st => pass1Step_fn f (transformStyles f) ctx st key src b hk)
  simp only [transformStyles]
  rw [hp1 (fun _ => none), hp1 body₂]
  simp only [List.foldl_append, List.foldl_cons]
  refine ⟨?_, ?_, by trivial, by trivial⟩
  · rw [foldl_pass2_preserves_at ctx _ post _ hpost]
    simp only [pass2Step, hk, if_true]
    exact rget_rset_self _ _ ""
  · intro m hm
    exact (foldl_pass2_agree ctx post
      (pass2Step_two_bodies ctx key src (fun _ => none) body₂ _ hk).1
      (pass2Step_two_bodies ctx key src (fun _ => none) body₂ _ hk).2).1 m hm

/-- C6 witness: a throwing resolver between a literal and a plain string
variable, against the identity resolver body. -/
theorem c6_resolver_throw_graceful_witness :
    0 < 3 ∧ startsWithUU "__boom" = true ∧
    (∀ e ∈ [("__also", StyleVal.vStr "red")],
      isFnVarFor ("--" ++ toKebabCase (strDrop "__boom" 2)) e = false) ∧
    (rget (transformStyles 3
        ([("__ok", StyleVal.vNum (jsNumberOf "1"))]
          ++ ("__boom", StyleVal.vFn "() => boom()" (fun _ => none))
            :: [("__also", StyleVal.vStr "red")]) {} none).1.CSSVars
      ("--" ++ toKebabCase (strDrop "__boom" 2)) = some "" ∧
    (∀ m, m ≠ "--" ++ toKebabCase (strDrop "__boom" 2) →
      rget (transformStyles 3
          ([("__ok", StyleVal.vNum (jsNumberOf "1"))]
            ++ ("__boom", StyleVal.vFn "() => boom()" (fun _ => none))
              :: [("__also", StyleVal.vStr "red")]) {} none).1.CSSVars m
        = rget (transformStyles 3
            ([("__ok", StyleVal.vNum (jsNumberOf "1"))]
              ++ ("__boom", StyleVal.vFn "() => boom()" (fun cv => some cv))
                :: [("__also", StyleVal.vStr "red")]) {} none).1.CSSVars m) ∧
    (transformStyles 3
        ([("__ok", StyleVal.vNum (jsNumberOf "1"))]
          ++ ("__boom", StyleVal.vFn "() => boom()" (fun _ => none))
            :: [("__also", StyleVal.vStr "red")]) {} none).1.regularStyles
      = (transformStyles 3
          ([("__ok", StyleVal.vNum (jsNumberOf "1"))]
            ++ ("__boom", StyleVal.vFn "() => boom()" (fun cv => some cv))
              :: [("__also", StyleVal.vStr "red")]) {} none).1.regularStyles ∧
    (transformStyles 3
        ([("__ok", StyleVal.vNum (jsNumberOf "1"))]
          ++ ("__boom", StyleVal.vFn "() => boom()" (fun _ => none))
            :: [("__also", StyleVal.vStr "red")]) {} none).1.pseudoClasses
      = (transformStyles 3
          ([("__ok", StyleVal.vNum (jsNumberOf "1"))]
            ++ ("__boom", StyleVal.vFn "() => boom()" (fun cv => some cv))
              :: [("__also", StyleVal.vStr "red")]) {} none).1.pseudoClasses) :=
  ⟨by decide, rfl, by decide,
    c6_resolver_throw_graceful 3 {} none
      [("__ok", StyleVal.vNum (jsNumberOf "1"))] [("__also", StyleVal.vStr "red")]
      "__boom" "() => boom()" (fun cv => some cv)
      (by decide) rfl (by decide)⟩

/-! ### Literal visibility and the resolution order of current values -/

/-- Membership in an updated record comes from the old record or is the
new entry. -/
theorem mem_rset {β : Type} (m : List (String × β)) (k : String) (v : β) (p : String × β)
    (hp : p ∈ rset m k v) : p ∈ m ∨ p = (k, v) := by
  unfold rset at hp
  by_cases h : m.any (fun q => q.1 == k) = true
  · rw [if_pos h] at hp
    rw [List.mem_map] at hp
    obtain ⟨q, hq, hqp⟩ := hp
    by_cases hqk : (q.1 == k) = true
    · rw [if_pos hqk] at hqp
      exact Or.inr hqp.symm
    · rw [if_neg hqk] at hqp
      exact Or.inl (hqp ▸ hq)
  · rw [if_neg h] at hp
    rw [List.mem_append] at hp
    rcases hp with hp | hp
    · exact Or.inl hp
    · rw [List.mem_singleton] at hp
      exact Or.inr hp

/-- Membership after folding record updates over a list of entries. -/
theorem mem_foldl_rset {β : Type} :
    ∀ (l : List (String × β)) (m : List (String × β)) (p : String × β),
      p ∈ l.foldl (fun acc q => rset acc q.1 q.2) m →
      p ∈ m ∨ ∃ q ∈ l, p.1 = q.1
  | [], _, _, hp => Or.inl hp
  | q :: rest, m, p, hp => by
      rw [List.foldl_cons] at hp
      rcases mem_foldl_rset rest (rset m q.1 q.2) p hp with h | ⟨q2, hq2, hpq⟩
      · rcases mem_rset m q.1 q.2 p h with h2 | h2
        · exact Or.inl h2
        · exact Or.inr ⟨q, List.mem_cons_self q rest, by rw [h2]⟩
      · exact Or.inr ⟨q2, List.mem_cons_of_mem q hq2, hpq⟩

/-- A fold of record updates whose keys all differ from the looked-up key
does not change the lookup. -/
theorem rget_fold_pcs_ne {β : Type} (target : String) :
    ∀ (l : List (String × β)) (m : List (String × β)),
      (∀ p ∈ l, p.1 ≠ target) →
      rget (l.foldl (fun acc q => rset acc q.1 q.2) m) target = rget m target
  | [], _, _ => rfl
  | q :: rest, m, h => by
      rw [List.foldl_cons,
        rget_fold_pcs_ne target rest (rset m q.1 q.2)
          (fun x hx => h x (List.mem_cons_of_mem q hx)),
        rget_rset_ne m q.1 q.2 target
          (fun hc => h q (List.mem_cons_self q rest) hc.symm)]

/-- The merge fold of regular styles into a nested variables record does
not change a variable name no kebab-cased property key collides with. -/
theorem rget_fold_regs_ne (f : Nat) (target : String) :
    ∀ (l : List (String × StyleVal)) (m : List (String × String)),
      (∀ p ∈ l, toKebabCase p.1 ≠ target) →
      rget (l.foldl (fun m2 p => rset m2 (toKebabCase p.1) (jsString f p.2)) m) target
        = rget m target
  | [], _, _ => rfl
  | q :: rest, m, h => by
      rw [List.foldl_cons,
        rget_fold_regs_ne f target rest (rset m (toKebabCase q.1) (jsString f q.2))
          (fun x hx => h x (List.mem_cons_of_mem q hx)),
        rget_rset_ne m (toKebabCase q.1) (jsString f q.2) target
          (fun hc => h q (List.mem_cons_self q rest) hc.symm)]

/-- Joining a chain extended by one element appends a separator and the
element. -/
theorem joinWith_append_singleton (sep : String) :
    ∀ (c : List String) (x : String), c ≠ [] →
      joinWith sep (c ++ [x]) = joinWith sep c ++ sep ++ x
  | [], _, h => absurd rfl h
  | [a], x, _ => rfl
  | a :: b :: t, x, _ => by
      have ih := joinWith_append_singleton sep (b :: t) x (by simp)
      show a ++ sep ++ joinWith sep ((b :: t) ++ [x])
        = a ++ sep ++ joinWith sep (b :: t) ++ sep ++ x
      rw [ih]
      simp [String.append_assoc]

/-- Extending a selector chain strictly lengthens the joined compound
selector. -/
theorem joinWith_length_lt (c : List String) (x : String) (h : c ≠ []) :
    (joinWith ":" c).length < (joinWith ":" (c ++ [x])).length := by
  rw [joinWith_append_singleton ":" c x h]
  have h2 : (":" : String).length = 1 := rfl
  simp only [String.length_append, h2]
  omega

/-- A first-pass step on a state entry: variables and regular styles pass
through unchanged; the states output gains the merged nested record under
the compound selector and splices the deeper nested selectors; the state
map and the diagnostics grow accordingly. -/
theorem pass1Step_state (fuel : Nat)
    (rec : List (String × StyleVal) → TransformContext → Option SVMap →
      TransformResult × SVMap × List Diag)
    (ctx : TransformContext) (st : P1State) (key : String) (v : StyleVal)
    (huu : startsWithUU key = false) (hu : startsWithU key = true) :
    pass1Step fuel rec ctx st (key, v) =
      { vars := st.vars, regs := st.regs,
        pcs := ((rec (entriesOf v)
              { parentVars := some st.vars,
                parentPseudoClasses :=
                  ctx.parentPseudoClasses ++ [toKebabCase (strDrop key 1)] }
              (some st.svm)).1.pseudoClasses).foldl (fun m p => rset m p.1 p.2)
            (rset st.pcs
              (joinWith ":" (ctx.parentPseudoClasses ++ [toKebabCase (strDrop key 1)]))
              (((rec (entriesOf v)
                  { parentVars := some st.vars,
                    parentPseudoClasses :=
                      ctx.parentPseudoClasses ++ [toKebabCase (strDrop key 1)] }
                  (some st.svm)).1.regularStyles).foldl
                (fun m p => rset m (toKebabCase p.1) (jsString fuel p.2))
                ((rec (entriesOf v)
                    { parentVars := some st.vars,
                      parentPseudoClasses :=
                        ctx.parentPseudoClasses ++ [toKebabCase (strDrop key 1)] }
                    (some st.svm)).1.CSSVars))),
        svm := rset ((rec (entriesOf v)
              { parentVars := some st.vars,
                parentPseudoClasses :=
                  ctx.parentPseudoClasses ++ [toKebabCase (strDrop key 1)] }
              (some st.svm)).2.1)
            (joinWith ":" (ctx.parentPseudoClasses ++ [toKebabCase (strDrop key 1)]))
            ((rec (entriesOf v)
                { parentVars := some st.vars,
                  parentPseudoClasses :=
                    ctx.parentPseudoClasses ++ [toKebabCase (strDrop key 1)] }
                (some st.svm)).1.CSSVars),
        diags := st.diags
          ++ (if mostCommonPseudoClasses.contains (toKebabCase (strDrop key 1)) then []
              else [Diag.unsupportedPseudoClass (toKebabCase (strDrop key 1))])
          ++ (rec (entriesOf v)
              { parentVars := some st.vars,
                parentPseudoClasses :=
                  ctx.parentPseudoClasses ++ [toKebabCase (strDrop key 1)] }
              (some st.svm)).2.2 } := by
  simp only [pass1Step, huu, Bool.false_eq_true, if_false, hu, if_true]

/-- A first-pass step on a state entry does not change the resolved
variables of the current level. -/
theorem pass1Step_state_vars (fuel : Nat)
    (rec : List (String × StyleVal) → TransformContext → Option SVMap →
      TransformResult × SVMap × List Diag)
    (ctx : TransformContext) (st : P1State) (key : String) (v : StyleVal)
    (huu : startsWithUU key = false) (hu : startsWithU key = true) :
    (pass1Step fuel rec ctx st (key, v)).vars = st.vars := by
  rw [pass1Step_state fuel rec ctx st key v huu hu]

/-- A first-pass step on a state entry does not change the collected
regular styles of the current level. -/
theorem pass1Step_state_regs (fuel : Nat)
    (rec : List (String × StyleVal) → TransformContext → Option SVMap →
      TransformResult × SVMap × List Diag)
    (ctx : TransformContext) (st : P1State) (key : String) (v : StyleVal)
    (huu : startsWithUU key = false) (hu : startsWithU key = true) :
    (pass1Step fuel rec ctx st (key, v)).regs = st.regs := by
  rw [pass1Step_state fuel rec ctx st key v huu hu]

/-- One first-pass step updates the resolved value of the variable name
`n` exactly as `litStep` describes: only a literal variable entry aliasing
`n` writes it. -/
theorem pass1Step_vars_at (fuel : Nat)
    (rec : List (String × StyleVal) → TransformContext → Option SVMap →
      TransformResult × SVMap × List Diag)
    (ctx : TransformContext) (st : P1State) (e : String × StyleVal) (n : String) :
    rget (pass1Step fuel rec ctx st e).vars n = litStep n (rget st.vars n) e := by
  obtain ⟨key, v⟩ := e
  by_cases huu : startsWithUU key = true
  · cases v with
    | vStr s =>
        simp only [pass1Step, litStep, litStringOf, huu, eq_self_iff_true, if_true,
          Bool.true_and]
        by_cases hn : ("--" ++ toKebabCase (strDrop key 2)) = n
        · rw [if_pos (by simp [hn]), hn, rget_rset_self]
        · rw [if_neg (by simp [hn]),
            rget_rset_ne st.vars ("--" ++ toKebabCase (strDrop key 2)) s n
              (fun h => hn h.symm)]
    | vNum q =>
        simp only [pass1Step, litStep, litStringOf, huu, eq_self_iff_true, if_true,
          Bool.true_and]
        by_cases hn : ("--" ++ toKebabCase (strDrop key 2)) = n
        · rw [if_pos (by simp [hn]), hn, rget_rset_self]
        · rw [if_neg (by simp [hn]),
            rget_rset_ne st.vars ("--" ++ toKebabCase (strDrop key 2)) (jsNumToString q) n
              (fun h => hn h.symm)]
    | vFn src body => simp [pass1Step, litStep, litStringOf, huu]
    | vNull => simp [pass1Step, litStep, litStringOf, huu]
    | vBool b => simp [pass1Step, litStep, litStringOf, huu]
    | vObj es => simp [pass1Step, litStep, litStringOf, huu]
    | vArr es => simp [pass1Step, litStep, litStringOf, huu]
  · have huu2 : startsWithUU key = false := bool_eq_false huu
    by_cases hu : startsWithU key = true
    · rw [pass1Step_state_vars fuel rec ctx st key v huu2 hu]
      simp [litStep, huu2]
    · simp [pass1Step, litStep, huu2, bool_eq_false hu]

/-- The first pass leaves, at each variable name, the value of its last
literal alias on top of the incoming record. -/
theorem p1_vars_foldl (fuel : Nat)
    (rec : List (String × StyleVal) → TransformContext → Option SVMap →
      TransformResult × SVMap × List Diag)
    (ctx : TransformContext) (n : String) :
    ∀ (l : List (String × StyleVal)) (st : P1State),
      rget ((l.foldl (pass1Step fuel rec ctx) st).vars) n
        = l.foldl (litStep n) (rget st.vars n)
  | [], _ => rfl
  | e :: rest, st => by
      rw [List.foldl_cons, List.foldl_cons,
        p1_vars_foldl fuel rec ctx n rest (pass1Step fuel rec ctx st e),
        pass1Step_vars_at fuel rec ctx st e n]

/-- A first-pass step on an entry that is not a state branch leaves the
states output unchanged. -/
theorem pass1Step_pcs_nonstate (fuel : Nat)
    (rec : List (String × StyleVal) → TransformContext → Option SVMap →
      TransformResult × SVMap × List Diag)
    (ctx : TransformContext) (st : P1State) (e : String × StyleVal)
    (h : isStateEntry e = false) :
    (pass1Step fuel rec ctx st e).pcs = st.pcs := by
  obtain ⟨key, v⟩ := e
  by_cases huu : startsWithUU key = true
  · cases v <;> simp [pass1Step, huu]
  · have hu : startsWithU key = false := by
      simp [isStateEntry, bool_eq_false huu] at h
      exact h
    simp [pass1Step, bool_eq_false huu, hu]

/-- Folding the first pass over entries that are not state branches
leaves the states output unchanged. -/
theorem p1_pcs_foldl_nonstate (fuel : Nat)
    (rec : List (String × StyleVal) → TransformContext → Option SVMap →
      TransformResult × SVMap × List Diag)
    (ctx : TransformContext) :
    ∀ (l : List (String × StyleVal)) (st : P1State),
      (∀ e ∈ l, isStateEntry e = false) →
      (l.foldl (pass1Step fuel rec ctx) st).pcs = st.pcs
  | [], _, _ => rfl
  | e :: rest, st, h => by
      rw [List.foldl_cons,
        p1_pcs_foldl_nonstate fuel rec ctx rest (pass1Step fuel rec ctx st e)
          (fun x hx => h x (List.mem_cons_of_mem e hx)),
        pass1Step_pcs_nonstate fuel rec ctx st e (h e (List.mem_cons_self e rest))]

/-- Appending entries that are not state branches after a prefix leaves
the whole states output of the transformation unchanged: everything a
state branch resolves is fixed before later non-state entries — in
particular later literal variables — are processed. -/
theorem pcs_ignores_nonstate_tail (fuel : Nat) (ctx : TransformContext)
    (svmIn : Option SVMap) (pre post : List (String × StyleVal))
    (hpost : ∀ e ∈ post, isStateEntry e = false) :
    (transformStyles fuel (pre ++ post) ctx svmIn).1.pseudoClasses
      = (transformStyles fuel pre ctx svmIn).1.pseudoClasses := by
  cases fuel with
  | zero => rfl
  | succ f =>
      simp only [transformStyles]
      rw [List.foldl_append]
      exact p1_pcs_foldl_nonstate f (transformStyles f) ctx post _ hpost

/-- The current value of a variable whose name the inherited parent
snapshot resolves is the parent value (transform.ts line 119, first
disjunct): own-level values do not override it. -/
theorem pass2CurrentValue_parent (ctx : TransformContext) (vars : List (String × String))
    (svm : SVMap) (n : String) {pv : List (String × String)} {s : String}
    (hctx : ctx.parentVars = some pv) (hn : rget pv n = some s) :
    pass2CurrentValue ctx vars svm n none = s := by
  simp only [pass2CurrentValue, hctx, hn]

/-- The current value of a variable the parent snapshot does not resolve
(or of a root-level variable) is the own resolved value, else the empty
string (transform.ts line 119, remaining disjuncts). -/
theorem pass2CurrentValue_own (ctx : TransformContext) (vars : List (String × String))
    (svm : SVMap) (n : String)
    (h : ctx.parentVars = none ∨
      ∃ pv, ctx.parentVars = some pv ∧ rget pv n = none) :
    pass2CurrentValue ctx vars svm n none = (rget vars n).getD "" := by
  rcases h with h | ⟨pv, h, hn⟩
  · simp only [pass2CurrentValue, h]
  · simp only [pass2CurrentValue, h, hn]

/-- The second-pass step on a function entry without a state reference
stores the resolver outcome — or the empty string of the catch — at its
variable name. -/
theorem pass2Step_fn_writes (ctx : TransformContext) (st : P2State) (fkey src : String)
    (body : String → Option String) (hk : startsWithUU fkey = true)
    (hsrc : extractFromParam src = none) {cv : String}
    (hcv : pass2CurrentValue ctx st.vars st.svm ("--" ++ toKebabCase (strDrop fkey 2)) none
      = cv) :
    rget (pass2Step ctx st (fkey, .vFn src body)).vars
        ("--" ++ toKebabCase (strDrop fkey 2))
      = some (resolvedOf body cv) := by
  simp only [pass2Step, hk, if_true, hsrc, hcv]
  cases hb : body cv with
  | some out => simp [rget_rset_self, resolvedOf, hb]
  | none => simp [rget_rset_self, resolvedOf, hb]

/-- Folding the second pass over a level whose parent snapshot does not
resolve the name of a no-reference function entry: the resolver receives
the value the incoming state holds at its name, and no later function
entry aliasing the name may follow. -/
theorem p2_own_value_aux (ctx : TransformContext)
    (ipre ipost : List (String × StyleVal)) (fkey src : String)
    (body : String → Option String)
    (hctx : ctx.parentVars = none ∨
      ∃ pv, ctx.parentVars = some pv ∧
        rget pv ("--" ++ toKebabCase (strDrop fkey 2)) = none)
    (hfk : startsWithUU fkey = true)
    (hsrc : extractFromParam src = none)
    (hipre : ∀ e ∈ ipre, isFnVarFor ("--" ++ toKebabCase (strDrop fkey 2)) e = false)
    (hipost : ∀ e ∈ ipost, isFnVarFor ("--" ++ toKebabCase (strDrop fkey 2)) e = false) :
    ∀ z : P2State,
      rget ((ipre ++ (fkey, .vFn src body) :: ipost).foldl (pass2Step ctx) z).vars
          ("--" ++ toKebabCase (strDrop fkey 2))
        = some (resolvedOf body
            ((rget z.vars ("--" ++ toKebabCase (strDrop fkey 2))).getD "")) := by
  intro z
  rw [List.foldl_append, List.foldl_cons,
    foldl_pass2_preserves_at ctx _ ipost _ hipost]
  refine pass2Step_fn_writes ctx _ fkey src body hfk hsrc ?_
  rw [pass2CurrentValue_own ctx _ _ _ hctx,
    foldl_pass2_preserves_at ctx _ ipre z hipre]

/-- In any transform call, a function-valued variable without a state
reference whose name the inherited parent snapshot resolves receives the
parent value — own-level entries do not override it — and stores the
resolver outcome in the resolved variables of the call. -/
theorem nested_fn_parent_value (f : Nat) (ctx : TransformContext) (svmIn : Option SVMap)
    (ipre ipost : List (String × StyleVal)) (fkey src : String)
    (body : String → Option String) {pv : List (String × String)} {s : String}
    (hctx : ctx.parentVars = some pv)
    (hfk : startsWithUU fkey = true)
    (hsrc : extractFromParam src = none)
    (hpv : rget pv ("--" ++ toKebabCase (strDrop fkey 2)) = some s)
    (hipost : ∀ e ∈ ipost, isFnVarFor ("--" ++ toKebabCase (strDrop fkey 2)) e = false) :
    rget ((transformStyles (f + 1) (ipre ++ (fkey, .vFn src body) :: ipost)
          ctx svmIn).1.CSSVars)
        ("--" ++ toKebabCase (strDrop fkey 2))
      = some (resolvedOf body s) := by
  simp only [transformStyles]
  simp only [List.foldl_append, List.foldl_cons]
  rw [foldl_pass2_preserves_at ctx _ ipost _ hipost]
  exact pass2Step_fn_writes ctx _ fkey src body hfk hsrc
    (pass2CurrentValue_parent ctx _ _ _ hctx hpv)

/-- In any transform call whose inherited parent snapshot does not
resolve the name — and in the root call, which has no parent — a
function-valued variable without a state reference receives the value the
first pass left at its own level: the last literal alias of the name
anywhere in the level, before or after the function entry, else the empty
string. -/
theorem nested_fn_own_value (f : Nat) (ctx : TransformContext) (svmIn : Option SVMap)
    (ipre ipost : List (String × StyleVal)) (fkey src : String)
    (body : String → Option String)
    (hctx : ctx.parentVars = none ∨
      ∃ pv, ctx.parentVars = some pv ∧
        rget pv ("--" ++ toKebabCase (strDrop fkey 2)) = none)
    (hfk : startsWithUU fkey = true)
    (hsrc : extractFromParam src = none)
    (hipre : ∀ e ∈ ipre, isFnVarFor ("--" ++ toKebabCase (strDrop fkey 2)) e = false)
    (hipost : ∀ e ∈ ipost, isFnVarFor ("--" ++ toKebabCase (strDrop fkey 2)) e = false) :
    rget ((transformStyles (f + 1) (ipre ++ (fkey, .vFn src body) :: ipost)
          ctx svmIn).1.CSSVars)
        ("--" ++ toKebabCase (strDrop fkey 2))
      = some (resolvedOf body
          ((lastLitAlias ("--" ++ toKebabCase (strDrop fkey 2))
            (ipre ++ (fkey, .vFn src body) :: ipost)).getD "")) := by
  simp only [transformStyles]
  rw [p2_own_value_aux ctx ipre ipost fkey src body hctx hfk hsrc hipre hipost]
  simp only [p1_vars_foldl f (transformStyles f) ctx]
  rfl

/-- Every compound selector a transform call with a nonempty inherited
chain produces is strictly longer than the joined inherited chain: nested
branches only ever extend the chain. -/
theorem transform_pcs_keys_long :
    ∀ (fuel : Nat) (styles : List (String × StyleVal)) (ctx : TransformContext)
      (svmIn : Option SVMap), ctx.parentPseudoClasses ≠ [] →
      ∀ p ∈ (transformStyles fuel styles ctx svmIn).1.pseudoClasses,
        (joinWith ":" ctx.parentPseudoClasses).length < p.1.length := by
  intro fuel
  induction fuel with
  | zero =>
      intro styles ctx svmIn hc p hp
      simp [transformStyles] at hp
  | succ f ih =>
      intro styles ctx svmIn hc p hp
      simp only [transformStyles] at hp
      have hfold : ∀ (l : List (String × StyleVal)) (st : P1State),
          (∀ q ∈ st.pcs, (joinWith ":" ctx.parentPseudoClasses).length < q.1.length) →
          ∀ q ∈ (l.foldl (pass1Step f (transformStyles f) ctx) st).pcs,
            (joinWith ":" ctx.parentPseudoClasses).length < q.1.length := by
        intro l
        induction l with
        | nil => intro st hst q hq; exact hst q hq
        | cons e rest ihl =>
            intro st hst q hq
            rw [List.foldl_cons] at hq
            refine ihl _ ?_ q hq
            intro r hr
            by_cases hse : isStateEntry e = true
            · obtain ⟨key, v⟩ := e
              have hparts : startsWithUU key = false ∧ startsWithU key = true := by
                simpa [isStateEntry] using hse
              rw [pass1Step_state f (transformStyles f) ctx st key v hparts.1 hparts.2] at hr
              rcases mem_foldl_rset _ _ r hr with h1 | ⟨q2, hq2, hq2e⟩
              · rcases mem_rset _ _ _ r h1 with h2 | h2
                · exact hst r h2
                · rw [h2]
                  exact joinWith_length_lt ctx.parentPseudoClasses
                    (toKebabCase (strDrop key 1)) hc
              · have hq2l := ih (entriesOf v)
                  { parentVars := some st.vars,
                    parentPseudoClasses :=
                      ctx.parentPseudoClasses ++ [toKebabCase (strDrop key 1)] }
                  (some st.svm) (by simp) q2 hq2
                rw [hq2e]
                calc (joinWith ":" ctx.parentPseudoClasses).length
                    < (joinWith ":" (ctx.parentPseudoClasses
                        ++ [toKebabCase (strDrop key 1)])).length :=
                      joinWith_length_lt ctx.parentPseudoClasses
                        (toKebabCase (strDrop key 1)) hc
                  _ < q2.1.length := hq2l
            · rw [pass1Step_pcs_nonstate f (transformStyles f) ctx st e
                (bool_eq_false hse)] at hr
              exact hst r hr
      exact hfold styles _ (fun q hq => absurd hq (List.not_mem_nil q)) p hp

/-- Looking up the compound selector of a state entry right after its
first-pass step yields the merged nested record: the spliced deeper
selectors are all strictly longer and cannot collide. -/
theorem state_step_pcs_lookup (f : Nat) (ctx : TransformContext) (st : P1State)
    (skey : String) (v : StyleVal)
    (hsk1 : startsWithUU skey = false) (hsk2 : startsWithU skey = true) :
    rget (pass1Step f (transformStyles f) ctx st (skey, v)).pcs
        (joinWith ":" (ctx.parentPseudoClasses ++ [toKebabCase (strDrop skey 1)]))
      = some (((transformStyles f (entriesOf v)
            { parentVars := some st.vars,
              parentPseudoClasses :=
                ctx.parentPseudoClasses ++ [toKebabCase (strDrop skey 1)] }
            (some st.svm)).1.regularStyles).foldl
          (fun m p => rset m (toKebabCase p.1) (jsString f p.2))
          ((transformStyles f (entriesOf v)
              { parentVars := some st.vars,
                parentPseudoClasses :=
                  ctx.parentPseudoClasses ++ [toKebabCase (strDrop skey 1)] }
              (some st.svm)).1.CSSVars)) := by
  rw [pass1Step_state f (transformStyles f) ctx st skey v hsk1 hsk2]
  have hkeys : ∀ p ∈ (transformStyles f (entriesOf v)
      { parentVars := some st.vars,
        parentPseudoClasses := ctx.parentPseudoClasses ++ [toKebabCase (strDrop skey 1)] }
      (some st.svm)).1.pseudoClasses,
      p.1 ≠ joinWith ":" (ctx.parentPseudoClasses ++ [toKebabCase (strDrop skey 1)]) := by
    intro p hp
    have hlen := transform_pcs_keys_long f (entriesOf v)
      { parentVars := some st.vars,
        parentPseudoClasses := ctx.parentPseudoClasses ++ [toKebabCase (strDrop skey 1)] }
      (some st.svm) (by simp) p hp
    intro hcontra
    rw [hcontra] at hlen
    exact lt_irrefl _ hlen
  rw [rget_fold_pcs_ne _ _ _ hkeys, rget_rset_self]

/-- A first-pass step adds to the regular styles only plain-property
keys. -/
theorem pass1Step_regs_from (fuel : Nat)
    (rec : List (String × StyleVal) → TransformContext → Option SVMap →
      TransformResult × SVMap × List Diag)
    (ctx : TransformContext) (st : P1State) (e : String × StyleVal) (p : String × StyleVal)
    (hp : p ∈ (pass1Step fuel rec ctx st e).regs) :
    p ∈ st.regs ∨ (startsWithU e.1 = false ∧ p.1 = e.1) := by
  obtain ⟨key, v⟩ := e
  by_cases huu : startsWithUU key = true
  · cases v <;> (simp [pass1Step, huu] at hp; exact Or.inl hp)
  · by_cases hu : startsWithU key = true
    · rw [pass1Step_state_regs fuel rec ctx st key v (bool_eq_false huu) hu] at hp
      exact Or.inl hp
    · simp only [pass1Step, bool_eq_false huu, Bool.false_eq_true, if_false,
        bool_eq_false hu] at hp
      rcases mem_rset st.regs key v p hp with h | h
      · exact Or.inl h
      · exact Or.inr ⟨bool_eq_false hu, by rw [h]⟩

/-- Keys in the regular styles of a first-pass fold come from the incoming
state or from plain-property entries of the list. -/
theorem p1_regs_from (fuel : Nat)
    (rec : List (String × StyleVal) → TransformContext → Option SVMap →
      TransformResult × SVMap × List Diag)
    (ctx : TransformContext) :
    ∀ (l : List (String × StyleVal)) (st : P1State) (p : String × StyleVal),
      p ∈ (l.foldl (pass1Step fuel rec ctx) st).regs →
      p ∈ st.regs ∨ ∃ e ∈ l, startsWithU e.1 = false ∧ p.1 = e.1
  | [], _, _, hp => Or.inl hp
  | e :: rest, st, p, hp => by
      rw [List.foldl_cons] at hp
      rcases p1_regs_from fuel rec ctx rest (pass1Step fuel rec ctx st e) p hp with
        h | ⟨e2, he2, hprop⟩
      · rcases pass1Step_regs_from fuel rec ctx st e p h with h2 | h2
        · exact Or.inl h2
        · exact Or.inr ⟨e, List.mem_cons_self e rest, h2⟩
      · exact Or.inr ⟨e2, List.mem_cons_of_mem e he2, hprop⟩

/-- Every key of the regular styles a transform call returns is the key
of a plain-property entry of its input. -/
theorem transform_regs_from (f : Nat) (styles : List (String × StyleVal))
    (ctx : TransformContext) (svmIn : Option SVMap) (p : String × StyleVal)
    (hp : p ∈ (transformStyles f styles ctx svmIn).1.regularStyles) :
    ∃ e ∈ styles, startsWithU e.1 = false ∧ p.1 = e.1 := by
  cases f with
  | zero => simp [transformStyles] at hp
  | succ f2 =>
      simp only [transformStyles] at hp
      rcases p1_regs_from f2 (transformStyles f2) ctx styles _ p hp with h | h
      · exact absurd h (List.not_mem_nil p)
      · exact h

/-- A literal variable declared in the enclosing level immediately before
a state branch is in the parent snapshot the branch receives, and a
no-reference function variable inside the branch receives its value,
which surfaces under the compound selector of the branch in the states
output of the whole transformation. -/
theorem before_literal_reaches_branch (g : Nat) (ctx : TransformContext)
    (svmIn : Option SVMap) (pre : List (String × StyleVal))
    (lkey : String) (lv : StyleVal) {s : String} (skey : String)
    (ipre ipost : List (String × StyleVal)) (fkey src : String)
    (body : String → Option String)
    (hlk : startsWithUU lkey = true)
    (hls : litStringOf lv = some s)
    (hlal : "--" ++ toKebabCase (strDrop lkey 2) = "--" ++ toKebabCase (strDrop fkey 2))
    (hsk1 : startsWithUU skey = false) (hsk2 : startsWithU skey = true)
    (hfk : startsWithUU fkey = true)
    (hsrc : extractFromParam src = none)
    (hipost : ∀ e ∈ ipost, isFnVarFor ("--" ++ toKebabCase (strDrop fkey 2)) e = false)
    (hreg : ∀ e ∈ ipre ++ (fkey, .vFn src body) :: ipost,
      isRegAliasFor ("--" ++ toKebabCase (strDrop fkey 2)) e = false) :
    ∃ m,
      rget ((transformStyles (g + 2)
            (pre ++ (lkey, lv)
              :: [(skey, .vObj (ipre ++ (fkey, .vFn src body) :: ipost))])
            ctx svmIn).1.pseudoClasses)
          (joinWith ":" (ctx.parentPseudoClasses ++ [toKebabCase (strDrop skey 1)]))
        = some m ∧
      rget m ("--" ++ toKebabCase (strDrop fkey 2)) = some (resolvedOf body s) := by
  have hregs : ∀ (ctx2 : TransformContext) (svm2 : Option SVMap) (p : String × StyleVal),
      p ∈ (transformStyles (g + 1) (ipre ++ (fkey, .vFn src body) :: ipost)
            ctx2 svm2).1.regularStyles →
      toKebabCase p.1 ≠ ("--" ++ toKebabCase (strDrop fkey 2)) := by
    intro ctx2 svm2 p hp
    obtain ⟨e, he, heU, hpe⟩ := transform_regs_from (g + 1) _ ctx2 svm2 p hp
    have halias := hreg e he
    rw [isRegAliasFor, heU] at halias
    simp at halias
    rw [hpe]
    simpa using halias
  simp only [transformStyles]
  simp only [List.foldl_append, List.foldl_cons, List.foldl_nil]
  refine ⟨_, state_step_pcs_lookup (g + 1) ctx _ skey
    (.vObj (ipre ++ (fkey, .vFn src body) :: ipost)) hsk1 hsk2, ?_⟩
  simp only [entriesOf]
  rw [rget_fold_regs_ne (g + 1) _ _ _ (hregs _ _)]
  refine nested_fn_parent_value g _ _ ipre ipost fkey src body rfl hfk hsrc ?_ hipost
  rw [pass1Step_vars_at]
  rw [litStep]
  rw [if_pos (by simp [hlk, hlal]), hls]

/-- C2 amended: how a function-valued variable without a state reference
receives its current value (transform.ts line 119), in general.
(i) Entries after a state branch that are not themselves state branches —
in particular later enclosing-level literals — leave the whole states
output unchanged, so they can never reach a branch, whose resolution is
already fixed.  (ii) When the inherited parent snapshot holds a value for
the variable name, the resolver receives that value, and own-level
entries do not override it.  (iii) When the parent snapshot lacks the
name, or at the root where there is no parent, the resolver receives the
value the first pass left at its own level — the last literal alias of
the name anywhere at that level, before or after the function entry —
else the empty string; in particular a root-level function variable sees
the root literal for its name regardless of insertion order.  (iv) An
enclosing-level literal declared before the state branch is in the
snapshot the branch receives: the resolver receives its value, which
surfaces under the compound selector of the branch. -/
theorem c2_amended_general :
    (∀ (fuel : Nat) (ctx : TransformContext) (svmIn : Option SVMap)
      (pre post : List (String × StyleVal)),
      (∀ e ∈ post, isStateEntry e = false) →
      (transformStyles fuel (pre ++ post) ctx svmIn).1.pseudoClasses
        = (transformStyles fuel pre ctx svmIn).1.pseudoClasses) ∧
    (∀ (f : Nat) (ctx : TransformContext) (svmIn : Option SVMap)
      (ipre ipost : List (String × StyleVal)) (fkey src : String)
      (body : String → Option String) (pv : List (String × String)) (s : String),
      ctx.parentVars = some pv →
      startsWithUU fkey = true →
      extractFromParam src = none →
      rget pv ("--" ++ toKebabCase (strDrop fkey 2)) = some s →
      (∀ e ∈ ipost, isFnVarFor ("--" ++ toKebabCase (strDrop fkey 2)) e = false) →
      rget ((transformStyles (f + 1) (ipre ++ (fkey, .vFn src body) :: ipost)
            ctx svmIn).1.CSSVars)
          ("--" ++ toKebabCase (strDrop fkey 2))
        = some (resolvedOf body s)) ∧
    (∀ (f : Nat) (ctx : TransformContext) (svmIn : Option SVMap)
      (ipre ipost : List (String × StyleVal)) (fkey src : String)
      (body : String → Option String),
      (ctx.parentVars = none ∨
        ∃ pv, ctx.parentVars = some pv ∧
          rget pv ("--" ++ toKebabCase (strDrop fkey 2)) = none) →
      startsWithUU fkey = true →
      extractFromParam src = none →
      (∀ e ∈ ipre, isFnVarFor ("--" ++ toKebabCase (strDrop fkey 2)) e = false) →
      (∀ e ∈ ipost, isFnVarFor ("--" ++ toKebabCase (strDrop fkey 2)) e = false) →
      rget ((transformStyles (f + 1) (ipre ++ (fkey, .vFn src body) :: ipost)
            ctx svmIn).1.CSSVars)
          ("--" ++ toKebabCase (strDrop fkey 2))
        = some (resolvedOf body
            ((lastLitAlias ("--" ++ toKebabCase (strDrop fkey 2))
              (ipre ++ (fkey, .vFn src body) :: ipost)).getD ""))) ∧
    (∀ (g : Nat) (ctx : TransformContext) (svmIn : Option SVMap)
      (pre : List (String × StyleVal)) (lkey : String) (lv : StyleVal) (s : String)
      (skey : String) (ipre ipost : List (String × StyleVal)) (fkey src : String)
      (body : String → Option String),
      startsWithUU lkey = true →
      litStringOf lv = some s →
      "--" ++ toKebabCase (strDrop lkey 2) = "--" ++ toKebabCase (strDrop fkey 2) →
      startsWithUU skey = false →
      startsWithU skey = true →
      startsWithUU fkey = true →
      extractFromParam src = none →
      (∀ e ∈ ipost, isFnVarFor ("--" ++ toKebabCase (strDrop fkey 2)) e = false) →
      (∀ e ∈ ipre ++ (fkey, .vFn src body) :: ipost,
        isRegAliasFor ("--" ++ toKebabCase (strDrop fkey 2)) e = false) →
      ∃ m,
        rget ((transformStyles (g + 2)
              (pre ++ (lkey, lv)
                :: [(skey, .vObj (ipre ++ (fkey, .vFn src body) :: ipost))])
              ctx svmIn).1.pseudoClasses)
            (joinWith ":" (ctx.parentPseudoClasses ++ [toKebabCase (strDrop skey 1)]))
          = some m ∧
        rget m ("--" ++ toKebabCase (strDrop fkey 2)) = some (resolvedOf body s)) :=
  ⟨pcs_ignores_nonstate_tail,
   fun f ctx svmIn ipre ipost fkey src body _ _ h1 h2 h3 h4 h5 =>
     nested_fn_parent_value f ctx svmIn ipre ipost fkey src body h1 h2 h3 h4 h5,
   fun f ctx svmIn ipre ipost fkey src body h1 h2 h3 h4 h5 =>
     nested_fn_own_value f ctx svmIn ipre ipost fkey src body h1 h2 h3 h4 h5,
   fun g ctx svmIn pre lkey lv _ skey ipre ipost fkey src body h1 h2 h3 h4 h5 h6 h7 h8 h9 =>
     before_literal_reaches_branch g ctx svmIn pre lkey lv skey ipre ipost fkey src body
       h1 h2 h3 h4 h5 h6 h7 h8 h9⟩

/-- C2 witness: each part of the amended statement applied at a concrete
input — the `_hover` branch of the counterexample is unchanged by the
trailing root literal; a nested identity resolver receives the inherited
"1" over anything at its own level; a root identity resolver receives the
"1" of an aliasing literal declared after it; a nested resolver whose
name the parent snapshot lacks receives the own-level literal "2" through
key aliasing; and a literal declared right before a `_hover` branch
surfaces as the hover value of the resolver inside the branch. -/
theorem c2_amended_general_witness :
    (∀ e ∈ [("__scale", StyleVal.vNum (jsNumberOf "1"))], isStateEntry e = false) ∧
    (transformStyles 5
        ([("_hover", StyleVal.vObj [("__scale", StyleVal.vFn idFnSrc idFnBody)])]
          ++ [("__scale", StyleVal.vNum (jsNumberOf "1"))]) {} none).1.pseudoClasses
      = (transformStyles 5
          [("_hover", StyleVal.vObj [("__scale", StyleVal.vFn idFnSrc idFnBody)])]
          {} none).1.pseudoClasses ∧
    extractFromParam idFnSrc = none ∧
    rget [("--scale", "1")] ("--" ++ toKebabCase (strDrop "__scale" 2)) = some "1" ∧
    rget ((transformStyles (2 + 1) ([] ++ ("__scale", StyleVal.vFn idFnSrc idFnBody) :: [])
          { parentVars := some [("--scale", "1")] } none).1.CSSVars)
        ("--" ++ toKebabCase (strDrop "__scale" 2))
      = some (resolvedOf idFnBody "1") ∧
    rget ((transformStyles (2 + 1)
          ([] ++ ("__bgColor", StyleVal.vFn idFnSrc idFnBody)
            :: [("__bg_color", StyleVal.vNum (jsNumberOf "1"))]) {} none).1.CSSVars)
        ("--" ++ toKebabCase (strDrop "__bgColor" 2))
      = some (resolvedOf idFnBody
          ((lastLitAlias ("--" ++ toKebabCase (strDrop "__bgColor" 2))
            ([] ++ ("__bgColor", StyleVal.vFn idFnSrc idFnBody)
              :: [("__bg_color", StyleVal.vNum (jsNumberOf "1"))])).getD "")) ∧
    rget ((transformStyles (2 + 1)
          ([("__scale", StyleVal.vNum (jsNumberOf "2"))]
            ++ ("__Scale", StyleVal.vFn idFnSrc idFnBody) :: [])
          { parentVars := some [] } none).1.CSSVars)
        ("--" ++ toKebabCase (strDrop "__Scale" 2))
      = some (resolvedOf idFnBody
          ((lastLitAlias ("--" ++ toKebabCase (strDrop "__Scale" 2))
            ([("__scale", StyleVal.vNum (jsNumberOf "2"))]
              ++ ("__Scale", StyleVal.vFn idFnSrc idFnBody) :: [])).getD "")) ∧
    litStringOf (StyleVal.vNum (jsNumberOf "1")) = some "1" ∧
    (∃ m,
      rget ((transformStyles (3 + 2)
            ([] ++ ("__scale", StyleVal.vNum (jsNumberOf "1"))
              :: [("_hover", StyleVal.vObj
                ([] ++ ("__scale", StyleVal.vFn idFnSrc idFnBody) :: []))])
            {} none).1.pseudoClasses)
          (joinWith ":" (({} : TransformContext).parentPseudoClasses
            ++ [toKebabCase (strDrop "_hover" 1)]))
        = some m ∧
      rget m ("--" ++ toKebabCase (strDrop "__scale" 2)) = some (resolvedOf idFnBody "1")) :=
  ⟨by decide,
   c2_amended_general.1 5 {} none
     [("_hover", StyleVal.vObj [("__scale", StyleVal.vFn idFnSrc idFnBody)])]
     [("__scale", StyleVal.vNum (jsNumberOf "1"))] (by decide),
   by decide,
   by decide,
   c2_amended_general.2.1 2 { parentVars := some [("--scale", "1")] } none
     [] [] "__scale" idFnSrc idFnBody [("--scale", "1")] "1"
     rfl (by decide) (by decide) (by decide) (by decide),
   c2_amended_general.2.2.1 2 {} none
     [] [("__bg_color", StyleVal.vNum (jsNumberOf "1"))] "__bgColor" idFnSrc idFnBody
     (Or.inl rfl) (by decide) (by decide) (by decide) (by decide),
   c2_amended_general.2.2.1 2 { parentVars := some [] } none
     [("__scale", StyleVal.vNum (jsNumberOf "2"))] [] "__Scale" idFnSrc idFnBody
     (Or.inr ⟨[], rfl, by decide⟩) (by decide) (by decide) (by decide) (by decide),
   by decide,
   c2_amended_general.2.2.2 3 {} none
     [] "__scale" (StyleVal.vNum (jsNumberOf "1")) "1" "_hover"
     [] [] "__scale" idFnSrc idFnBody
     (by decide) (by decide) rfl (by decide) (by decide) (by decide) (by decide)
     (by decide) (by decide)⟩

/-! ### The cache-container invariant -/

/-- Every rendered rule text begins with a dot and the identity key. -/
theorem renderRules_keyed (fuel : Nat) (hash : String) (cv : List (String × String))
    (rs : List (String × StyleVal)) (pc : List (String × List (String × String))) :
    ∀ r ∈ renderRules fuel hash cv rs pc, ∃ rest, r = "." ++ hash ++ rest := by
  intro r hr
  simp only [renderRules] at hr
  rw [List.mem_append] at hr
  rcases hr with hr | hr
  · split at hr
    · simp at hr
    · rw [List.mem_singleton] at hr
      refine ⟨" \x7b "
        ++ declsOf (rs.foldl (fun m p => rset m (toKebabCase p.1) (jsString fuel p.2)) cv)
        ++ " \x7d", ?_⟩
      rw [hr]
      simp [String.append_assoc]
  · rw [List.mem_filterMap] at hr
    obtain ⟨p, _, hf⟩ := hr
    by_cases hpv : declsOf p.2 = ""
    · rw [if_pos hpv] at hf
      cases hf
    · rw [if_neg hpv] at hf
      injection hf with hf
      refine ⟨":" ++ p.1 ++ " \x7b " ++ declsOf p.2 ++ " \x7d", ?_⟩
      rw [← hf]
      simp [String.append_assoc]

theorem rulesInUpTo_some (env : JsEnv) (t : StyleTag) (rules : List String) :
    rulesInUpTo env (some t) rules ↔
      if env.isDev = true then
        ∃ a b, t.textContent.data = a ++ (joinWith "\n" rules ++ "\n").data ++ b
      else ∀ r ∈ rules, env.insertRejected r = false → r ∈ t.cssRules :=
  Iff.rfl

/-- Presence of rules survives growing the container. -/
theorem rulesInUpTo_mono (env : JsEnv) (t t' : StyleTag) (rules : List String)
    (hx : ∃ x, t'.textContent = t.textContent ++ x)
    (hl : ∃ l, t'.cssRules = t.cssRules ++ l)
    (h : rulesInUpTo env (some t) rules) : rulesInUpTo env (some t') rules := by
  rw [rulesInUpTo_some] at h ⊢
  by_cases hdev : env.isDev = true
  · rw [if_pos hdev] at h ⊢
    obtain ⟨a, b, hab⟩ := h
    obtain ⟨x, hxx⟩ := hx
    refine ⟨a, b ++ x.data, ?_⟩
    rw [hxx, String.data_append, hab]
    simp
  · rw [if_neg hdev] at h ⊢
    obtain ⟨l, hll⟩ := hl
    intro r hrr hacc
    rw [hll, List.mem_append]
    exact Or.inl (h r hrr hacc)

/-- A container holding the freshly appended rules of a key contains
them: the whole block in textual-append mode, the accepted insertions in
rule-object mode. -/
theorem rulesInUpTo_appended (env : JsEnv) (t : StyleTag) (rules : List String) :
    (env.isDev = true →
      rulesInUpTo env
        (some { t with textContent := t.textContent ++ (joinWith "\n" rules ++ "\n") })
        rules) ∧
    (env.isDev = false →
      rulesInUpTo env
        (some { t with cssRules := t.cssRules ++ rules.filter (fun r => !env.insertRejected r) })
        rules) := by
  constructor
  · intro hdev
    rw [rulesInUpTo_some, if_pos hdev]
    refine ⟨t.textContent.data, [], ?_⟩
    simp [String.data_append]
  · intro hdev
    rw [rulesInUpTo_some, if_neg (by rw [hdev]; exact Bool.false_ne_true)]
    intro r hr hacc
    rw [List.mem_append]
    refine Or.inr ?_
    rw [List.mem_filter]
    exact ⟨hr, by simp [hacc]⟩

/-- One `injectCSS` call preserves the invariant. -/
theorem inject_preserves_cacheBackedUpTo (env : JsEnv) (fuel : Nat) (d : Dom) (hash : String)
    (cv : List (String × String)) (rs : List (String × StyleVal))
    (pc : List (String × List (String × String)))
    (hcb : cacheBackedUpTo env d) :
    cacheBackedUpTo env (injectCSS env fuel d hash cv rs pc).1 := by
  unfold injectCSS
  by_cases hc : d.styleCache.contains hash = true
  · rw [if_pos hc]
    exact hcb
  · rw [if_neg hc]
    by_cases hre : (renderRules fuel hash cv rs pc).isEmpty = true
    · rw [if_pos hre]
      intro h hmem
      rw [fetchStyleTag_cache] at hmem
      rcases hcb h hmem with ⟨rules, hne, hpre, hin⟩
      refine ⟨rules, hne, hpre, ?_⟩
      cases hd : d.styleTag with
      | some t =>
          have : (fetchStyleTag env d).2 = d := by
            unfold fetchStyleTag
            rw [hd]
          rw [this]
          exact hin
      | none =>
          rw [hd] at hin
          exact hin.elim
    · rw [if_neg hre]
      have hkeyed := renderRules_keyed fuel hash cv rs pc
      have hne : renderRules fuel hash cv rs pc ≠ [] := by
        simpa [List.isEmpty_iff] using hre
      cases hd : d.styleTag with
      | some t =>
          have hft : fetchStyleTag env d = (t, d) := by
            unfold fetchStyleTag
            rw [hd]
          rw [hft]
          by_cases hdev : env.isDev = true
          · rw [if_pos hdev]
            intro h hmem
            simp only [List.mem_append, List.mem_singleton] at hmem
            rcases hmem with hmem | rfl
            · rcases hcb h hmem with ⟨rules, hne2, hpre, hin⟩
              rw [hd] at hin
              exact ⟨rules, hne2, hpre,
                rulesInUpTo_mono env t _ rules ⟨_, rfl⟩ ⟨[], by simp⟩ hin⟩
            · exact ⟨_, hne, hkeyed, (rulesInUpTo_appended env t _).1 hdev⟩
          · rw [if_neg hdev]
            by_cases hsh : t.hasSheet = true
            · rw [if_neg (by simp [hsh])]
              intro h hmem
              simp only [List.mem_append, List.mem_singleton] at hmem
              rcases hmem with hmem | rfl
              · rcases hcb h hmem with ⟨rules, hne2, hpre, hin⟩
                rw [hd] at hin
                exact ⟨rules, hne2, hpre,
                  rulesInUpTo_mono env t _ rules ⟨"", by simp⟩ ⟨_, rfl⟩ hin⟩
              · exact ⟨_, hne, hkeyed, (rulesInUpTo_appended env t _).2 (bool_eq_false hdev)⟩
            · rw [if_pos (by simp [bool_eq_false hsh])]
              intro h hmem
              rcases hcb h hmem with ⟨rules, hne2, hpre, hin⟩
              exact ⟨rules, hne2, hpre, hin⟩
      | none =>
          have hempty : ∀ x, x ∉ d.styleCache := by
            intro x hx
            rcases hcb x hx with ⟨rules, _, _, hin⟩
            rw [hd] at hin
            exact hin.elim
          have hft : fetchStyleTag env d
              = (⟨"", [], env.freshTagHasSheet⟩,
                 ⟨some ⟨"", [], env.freshTagHasSheet⟩, d.styleCache⟩) := by
            unfold fetchStyleTag
            rw [hd]
          rw [hft]
          by_cases hdev : env.isDev = true
          · rw [if_pos hdev]
            intro h hmem
            simp only [List.mem_append, List.mem_singleton] at hmem
            rcases hmem with hmem | rfl
            · exact absurd hmem (hempty h)
            · refine ⟨_, hne, hkeyed, ?_⟩
              have h9 := (rulesInUpTo_appended env ⟨"", [], env.freshTagHasSheet⟩
                (renderRules fuel h cv rs pc)).1 hdev
              simpa using h9
          · rw [if_neg hdev]
            by_cases hsh : env.freshTagHasSheet = true
            · rw [if_neg (by simp [hsh])]
              intro h hmem
              simp only [List.mem_append, List.mem_singleton] at hmem
              rcases hmem with hmem | rfl
              · exact absurd hmem (hempty h)
              · refine ⟨_, hne, hkeyed, ?_⟩
                have h9 := (rulesInUpTo_appended env ⟨"", [], env.freshTagHasSheet⟩
                  (renderRules fuel h cv rs pc)).2 (bool_eq_false hdev)
                simpa using h9
            · rw [if_pos (by simp [bool_eq_false hsh])]
              intro h hmem
              exact absurd hmem (hempty h)

/-- One `injectCSS` call only ever appends to the container. -/
theorem inject_extends (env : JsEnv) (fuel : Nat) (d : Dom) (hash : String)
    (cv : List (String × String)) (rs : List (String × StyleVal))
    (pc : List (String × List (String × String))) :
    containerExtends d (injectCSS env fuel d hash cv rs pc).1 := by
  unfold containerExtends
  cases hd : d.styleTag with
  | none => trivial
  | some t =>
      have hft : fetchStyleTag env d = (t, d) := by
        unfold fetchStyleTag
        rw [hd]
      unfold injectCSS
      rw [hft]
      by_cases hc : d.styleCache.contains hash = true
      · rw [if_pos hc]
        exact ⟨t, hd, ⟨"", by simp⟩, ⟨[], by simp⟩⟩
      · rw [if_neg hc]
        by_cases hre : (renderRules fuel hash cv rs pc).isEmpty = true
        · rw [if_pos hre]
          exact ⟨t, hd, ⟨"", by simp⟩, ⟨[], by simp⟩⟩
        · rw [if_neg hre]
          by_cases hdev : env.isDev = true
          · rw [if_pos hdev]
            exact ⟨_, rfl, ⟨_, rfl⟩, ⟨[], by simp⟩⟩
          · rw [if_neg hdev]
            by_cases hsh : t.hasSheet = true
            · rw [if_neg (by simp [hsh])]
              exact ⟨_, rfl, ⟨"", by simp⟩, ⟨_, rfl⟩⟩
            · rw [if_pos (by simp [bool_eq_false hsh])]
              exact ⟨t, hd, ⟨"", by simp⟩, ⟨[], by simp⟩⟩

/-- C5 counterexample: with the rule-object path live and a CSS parser
that rejects the rendered rule text (as for a selector using a
pseudo-class the browser does not support — which the transformer admits
with only a warning), `insertRule` throws, the catch swallows the failure
per rule, and `STYLE_CACHE.add` still runs: the reachable state `dRej`
has "vw-1" in the cache while the container holds no rule at all, so no
nonempty rule set for the key is present and the claimed invariant
fails. -/
theorem c5_counterexample :
    Reachable envRej dRej ∧ ¬ cacheBacked envRej dRej := by
  constructor
  · exact Reachable.inject 5 "vw-1" [("--a", "1")] [] [] Reachable.init
  · intro hcb
    rcases hcb "vw-1" (by decide) with ⟨rules, hne, _, hin⟩
    have hst : dRej.styleTag = some ⟨"", [], true⟩ := by decide
    rw [hst] at hin
    have hin2 : ∀ r ∈ rules, r ∈ ([] : List String) := by
      simpa [rulesIn, envRej] using hin
    cases rules with
    | nil => exact hne rfl
    | cons r rest => simpa using hin2 r (by simp)

/-- C5 amended: in every reachable document state, each cached identity
key has a nonempty set of rules for that key present in the container —
in full in textual-append mode, and up to individually rejected
`insertRule` calls in rule-object mode, where a rule the CSS parser
rejects is missing while the key is cached anyway; an injection only ever
appends to the container (rules are never removed individually); and only
the full reset clears the container and the cache, together and
completely. -/
theorem c5_cache_container_upto (env : JsEnv) (d : Dom) (hr : Reachable env d) :
    cacheBackedUpTo env d ∧
    (∀ fuel hash cv rs pc, containerExtends d (injectCSS env fuel d hash cv rs pc).1) ∧
    removeStyles d = ⟨none, []⟩ := by
  refine ⟨?_, fun fuel hash cv rs pc => inject_extends env fuel d hash cv rs pc, rfl⟩
  induction hr with
  | init =>
      intro h hmem
      simp at hmem
  | inject fuel hash cv rs pc _ ih =>
      exact inject_preserves_cacheBackedUpTo env fuel _ hash cv rs pc ih
  | reset _ _ =>
      intro h hmem
      simp [removeStyles] at hmem

/-- C5 witness: the amended invariant at the state reached by injecting
one rule into the fresh document. -/
theorem c5_cache_container_upto_witness :
    cacheBackedUpTo env0 d1 ∧
    (∀ fuel hash cv rs pc, containerExtends d1 (injectCSS env0 fuel d1 hash cv rs pc).1) ∧
    removeStyles d1 = ⟨none, []⟩ :=
  c5_cache_container_upto env0 d1
    (Reachable.inject 5 "vw-1" [("--a", "1")] [] [] Reachable.init)

end Varwolf
